import Mathlib

/-!
# Verification of the Figsearch bitmap shape-search core

A shallow embedding of the core of `src/main.c` (the IZP Figsearch program):
the bitmap loader, the longest-horizontal/vertical-line scanners and the
largest-bordered-square scanner, together with proofs settling the frozen
claims about the natural-language specification.

Modelling conventions:
* `uint32_t` values are modelled as `Nat`.  Index arithmetic is carried out in
  `Nat`; this coincides with the C program whenever `width * height < 2^32`
  (larger bitmaps cannot even be addressed by the C scan loops).
* The one place where unsigned wraparound is semantically essential is
  `shape_geometry_cmp`, which computes `uint32_t` differences and returns them
  as `int`.  That wraparound is modelled explicitly (`u32_sub`, `u32_to_int`,
  taking the ubiquitous two's-complement conversion for the
  implementation-defined `uint32_t → int` cast).
* C loops are modelled as structurally recursive functions on an explicit
  fuel argument chosen so that the fuel never runs out before the loop's own
  exit condition fires (each such choice is justified in a comment), keeping
  every definition kernel-executable.
* Pixels are `Bool` (`true` = `PXL_FILLED` = `'1'`), matching the loader's
  guarantee that the buffer only ever holds `'0'`/`'1'`.
* The input file is a `List Char`; `FILE *` reads in buffered chunks are
  functionally a plain left-to-right character traversal.
-/

set_option maxRecDepth 4000

/- =========================================
   Error model (error codes from main.c)
   ========================================= -/

def ERR_NONE : Nat := 0
def ERR_ALLOCATION_FAILURE : Nat := 0x00FA75E5
def ERR_INVALID_BITMAP_FILE : Nat := 0x8BADF00D
def ERR_INVALID_DIMENSION : Nat := 0xABADBABE

/-- The distinct failure exits of the loader in `main.c`, with the numeric
payloads that their `error_ctor` format strings carry.  `rawSizeMismatch` is
the `bmp_loader_add_pixel == NULL` exit ("The raw bitmap size does not match
given dimensions!"), `pixelCountMismatch` the final `loader->size !=
expected_size` check (which reports found and expected counts). -/
inductive LoadError where
  | unexpectedCharacter (c : Char)
  | rawSizeMismatch
  | invalidDimensionToken
  | invalidDimensionZero
  | pixelCountMismatch (found expected : Nat)
deriving DecidableEq, Repr

/-- The C error code (`Error::code`) attached to each failure exit. -/
def LoadError.code : LoadError → Nat
  | .unexpectedCharacter _ => ERR_INVALID_BITMAP_FILE
  | .rawSizeMismatch => ERR_INVALID_BITMAP_FILE
  | .invalidDimensionToken => ERR_INVALID_DIMENSION
  | .invalidDimensionZero => ERR_INVALID_DIMENSION
  | .pixelCountMismatch _ _ => ERR_INVALID_DIMENSION

/- =========================================
   Bitmap data model (struct BitmapSize / Bitmap, bmp_at)
   ========================================= -/

structure BitmapSize where
  width : Nat
  height : Nat
deriving DecidableEq, Repr

/-- `struct Bitmap`: dimensions plus the row-major linear pixel buffer. -/
structure Bitmap where
  dimensions : BitmapSize
  data : List Bool
deriving DecidableEq, Repr

/-- `bmp_size_raw`: linear size of the bitmap data. -/
def bmp_size_raw (dimension : BitmapSize) : Nat :=
  dimension.width * dimension.height

/-- The macro `bmp_at(bmp, row, col)`: unchecked read of
`data[row * width + col]` (out-of-buffer reads, which the C cannot recover
from, are given the default `false`). -/
def bmp_at (bmp : Bitmap) (row col : Nat) : Bool :=
  bmp.data.getD (row * bmp.dimensions.width + col) false

/-- A bitmap whose buffer has exactly the declared extent (what a successful
load produces). -/
def bmp_wf (bmp : Bitmap) : Prop :=
  bmp.data.length = bmp_size_raw bmp.dimensions

/- =========================================
   Point / ShapeGeometry
   ========================================= -/

def COORD_INVALID : Nat := 4294967295

structure Point where
  x : Nat
  y : Nat
deriving DecidableEq, Repr

def point_ctor (x y : Nat) : Point := ⟨x, y⟩

def point_invalid_ctor : Point := ⟨COORD_INVALID, COORD_INVALID⟩

def point_is_invalid (p : Point) : Bool :=
  p.x == COORD_INVALID || p.y == COORD_INVALID

structure ShapeGeometry where
  start : Point
  end_ : Point
deriving DecidableEq, Repr

def shape_geometry_ctor (start end_ : Point) : ShapeGeometry := ⟨start, end_⟩

def shape_geometry_invalid_ctor : ShapeGeometry :=
  shape_geometry_ctor point_invalid_ctor point_invalid_ctor

def shape_geometry_is_invalid (shape : ShapeGeometry) : Bool :=
  point_is_invalid shape.start || point_is_invalid shape.end_

/-- The `printf` in `shape_geometry_print`: the four numbers emitted, in
order `start.y start.x end.y end.x`. -/
def shape_geometry_print (shape : ShapeGeometry) : Nat × Nat × Nat × Nat :=
  (shape.start.y, shape.start.x, shape.end_.y, shape.end_.x)

/- ---- the comparator, with its uint32 wraparound modelled exactly ---- -/

def U32_MOD : Nat := 4294967296
def INT_HALF : Nat := 2147483648

/-- `uint32_t` subtraction `a - b` (for operands below `2^32`). -/
def u32_sub (a b : Nat) : Nat := (U32_MOD + a - b) % U32_MOD

/-- The (gcc/clang/msvc) conversion of a `uint32_t` value to `int`:
values at or above `2^31` wrap to negatives. -/
def u32_to_int (d : Nat) : Int :=
  if d < INT_HALF then (d : Int) else (d : Int) - (U32_MOD : Int)

/-- `shape_geometry_cmp`: compares first by `size_func`, then (ties) by
`start.y`, then by `start.x`.  All three steps compute a `uint32_t`
difference and return it as `int`. -/
def shape_geometry_cmp (lhs rhs : ShapeGeometry)
    (size_func : ShapeGeometry → Nat) : Int :=
  let length_delta := u32_sub (size_func lhs) (size_func rhs)
  if length_delta ≠ 0 then u32_to_int length_delta
  else if lhs.start.y ≠ rhs.start.y then u32_to_int (u32_sub rhs.start.y lhs.start.y)
  else u32_to_int (u32_sub rhs.start.x lhs.start.x)

/- =========================================
   Line scanners
   ========================================= -/

/-- `hline_length`: `end.x - start.x + 1`. -/
def hline_length (line : ShapeGeometry) : Nat := line.end_.x - line.start.x + 1

/-- `vline_length`: `end.y - start.y + 1`. -/
def vline_length (line : ShapeGeometry) : Nat := line.end_.y - line.start.y + 1

def hline_cmp (lhs rhs : ShapeGeometry) : Int := shape_geometry_cmp lhs rhs hline_length

def vline_cmp (lhs rhs : ShapeGeometry) : Int := shape_geometry_cmp lhs rhs vline_length

/-- The `x_track` loop of `line_find_hline`: advance while in-bounds and
filled; returns the final `x_track`.  Fuel: the loop runs at most
`width - x` times (on fuel exhaustion `x ≥ width`, where the C loop guard
fails as well, so both return `x`). -/
def hline_scan_fuel (bmp : Bitmap) (row : Nat) : Nat → Nat → Nat
  | 0, x => x
  | fuel + 1, x =>
    if x < bmp.dimensions.width ∧ bmp_at bmp row x = true then
      hline_scan_fuel bmp row fuel (x + 1)
    else x

def hline_scan (bmp : Bitmap) (row x : Nat) : Nat :=
  hline_scan_fuel bmp row (bmp.dimensions.width - x) x

/-- `line_find_hline`. -/
def line_find_hline (bmp : Bitmap) (begin_ : Point) : ShapeGeometry :=
  if bmp_at bmp begin_.y begin_.x = true then
    shape_geometry_ctor begin_ (point_ctor (hline_scan bmp begin_.y (begin_.x + 1) - 1) begin_.y)
  else shape_geometry_invalid_ctor

/-- The `y_track` loop of `line_find_vline`. -/
def vline_scan_fuel (bmp : Bitmap) (col : Nat) : Nat → Nat → Nat
  | 0, y => y
  | fuel + 1, y =>
    if y < bmp.dimensions.height ∧ bmp_at bmp y col = true then
      vline_scan_fuel bmp col fuel (y + 1)
    else y

def vline_scan (bmp : Bitmap) (col y : Nat) : Nat :=
  vline_scan_fuel bmp col (bmp.dimensions.height - y) y

/-- `line_find_vline`. -/
def line_find_vline (bmp : Bitmap) (begin_ : Point) : ShapeGeometry :=
  if bmp_at bmp begin_.y begin_.x = true then
    shape_geometry_ctor begin_ (point_ctor begin_.x (vline_scan bmp begin_.x (begin_.y + 1) - 1))
  else shape_geometry_invalid_ctor

/-- Inner column loop of `line_find_longest_hline`: for
`col < width - max_length`, find a line at `(col,row)`; skip one column on a
miss, jump to `temp.end.x + 1` on a hit, updating `(max, max_length)` via the
comparator.  Fuel: `col` strictly increases each iteration and the guard
fails once `col ≥ width`, so `width` initial fuel suffices (on fuel
exhaustion `col ≥ width ≥ width - max_length` and the C guard fails too). -/
def longest_hline_row_fuel (bmp : Bitmap) (row : Nat) :
    Nat → Nat → ShapeGeometry → Nat → ShapeGeometry × Nat
  | 0, _, max, max_length => (max, max_length)
  | fuel + 1, col, max, max_length =>
    if col < bmp.dimensions.width - max_length then
      let temp := line_find_hline bmp (point_ctor col row)
      if shape_geometry_is_invalid temp = true then
        longest_hline_row_fuel bmp row fuel (col + 1) max max_length
      else if shape_geometry_is_invalid max = true ∨ hline_cmp max temp < 0 then
        longest_hline_row_fuel bmp row fuel (temp.end_.x + 1) temp (hline_length temp)
      else
        longest_hline_row_fuel bmp row fuel (temp.end_.x + 1) max max_length
    else (max, max_length)

/-- Outer row loop of `line_find_longest_hline`. -/
def longest_hline_rows_fuel (bmp : Bitmap) :
    Nat → Nat → ShapeGeometry → Nat → ShapeGeometry × Nat
  | 0, _, max, max_length => (max, max_length)
  | fuel + 1, row, max, max_length =>
    if row < bmp.dimensions.height then
      let acc := longest_hline_row_fuel bmp row bmp.dimensions.width 0 max max_length
      longest_hline_rows_fuel bmp fuel (row + 1) acc.1 acc.2
    else (max, max_length)

/-- `line_find_longest_hline`. -/
def line_find_longest_hline (bmp : Bitmap) : ShapeGeometry :=
  (longest_hline_rows_fuel bmp bmp.dimensions.height 0 shape_geometry_invalid_ctor 0).1

/-- Inner row loop of `line_find_longest_vline`. -/
def longest_vline_col_fuel (bmp : Bitmap) (col : Nat) :
    Nat → Nat → ShapeGeometry → Nat → ShapeGeometry × Nat
  | 0, _, max, max_length => (max, max_length)
  | fuel + 1, row, max, max_length =>
    if row < bmp.dimensions.height - max_length then
      let temp := line_find_vline bmp (point_ctor col row)
      if shape_geometry_is_invalid temp = true then
        longest_vline_col_fuel bmp col fuel (row + 1) max max_length
      else if shape_geometry_is_invalid max = true ∨ vline_cmp max temp < 0 then
        longest_vline_col_fuel bmp col fuel (temp.end_.y + 1) temp (vline_length temp)
      else
        longest_vline_col_fuel bmp col fuel (temp.end_.y + 1) max max_length
    else (max, max_length)

/-- Outer column loop of `line_find_longest_vline`. -/
def longest_vline_cols_fuel (bmp : Bitmap) :
    Nat → Nat → ShapeGeometry → Nat → ShapeGeometry × Nat
  | 0, _, max, max_length => (max, max_length)
  | fuel + 1, col, max, max_length =>
    if col < bmp.dimensions.width then
      let acc := longest_vline_col_fuel bmp col bmp.dimensions.height 0 max max_length
      longest_vline_cols_fuel bmp fuel (col + 1) acc.1 acc.2
    else (max, max_length)

/-- `line_find_longest_vline`. -/
def line_find_longest_vline (bmp : Bitmap) : ShapeGeometry :=
  (longest_vline_cols_fuel bmp bmp.dimensions.width 0 shape_geometry_invalid_ctor 0).1

example :
    shape_geometry_print
      (line_find_longest_hline ⟨⟨3, 2⟩, [true, true, true, false, true, false]⟩) =
      (0, 0, 0, 2) := by decide

example :
    shape_geometry_print
      (line_find_longest_vline ⟨⟨3, 2⟩, [true, true, true, false, true, false]⟩) =
      (0, 1, 1, 1) := by decide

/- =========================================
   Square scanner
   ========================================= -/

/-- `square_side_length`: `end.x - start.x + 1`. -/
def square_side_length (s : ShapeGeometry) : Nat := s.end_.x - s.start.x + 1

def square_cmp (lhs rhs : ShapeGeometry) : Int :=
  shape_geometry_cmp lhs rhs square_side_length

def square_find_vertical_side (bmp : Bitmap) (row col : Nat) : ShapeGeometry :=
  line_find_vline bmp (point_ctor col row)

def square_find_horizontal_side (bmp : Bitmap) (row col : Nat) : ShapeGeometry :=
  line_find_hline bmp (point_ctor col row)

/-- `square_found_valid_square`: the bottom side (from `(bottom_right.y,
top_left.x)` rightwards) and the right side (from `(top_left.y,
bottom_right.x)` downwards) must each reach at least `bottom_right`. -/
def square_found_valid_square (bmp : Bitmap) (top_left bottom_right : Point) : Bool :=
  let hline := square_find_horizontal_side bmp bottom_right.y top_left.x
  let vline := square_find_vertical_side bmp top_left.y bottom_right.x
  decide (bottom_right.x ≤ hline.end_.x) && decide (bottom_right.y ≤ vline.end_.y)

/-- `square_set_max_square`, returning the updated `(max, max_length)` pair. -/
def square_set_max_square (max : ShapeGeometry) (max_length : Nat)
    (rhs : ShapeGeometry) : ShapeGeometry × Nat :=
  if shape_geometry_is_invalid max = true ∨ square_cmp max rhs < 0 then
    (rhs, square_side_length rhs)
  else (max, max_length)

/-- The loop of `square_move_along_orthogonals`: step the diagonal cursor
while both the rightwards and the downwards ray stay in-bounds and filled.
Fuel: `x_track` increments every iteration and the loop breaks once
`x_track ≥ width`, so `width - x` fuel suffices (on fuel exhaustion
`x ≥ width`, where the C loop breaks as well returning `(x-1, y-1)`). -/
def square_move_loop (bmp : Bitmap) (top_left : Point) : Nat → Nat → Nat → Point
  | 0, x, y => point_ctor (x - 1) (y - 1)
  | fuel + 1, x, y =>
    if x ≥ bmp.dimensions.width ∨ bmp_at bmp top_left.y x = false then
      point_ctor (x - 1) (y - 1)
    else if y ≥ bmp.dimensions.height ∨ bmp_at bmp y top_left.x = false then
      point_ctor (x - 1) (y - 1)
    else square_move_loop bmp top_left fuel (x + 1) (y + 1)

/-- `square_move_along_orthogonals`. -/
def square_move_along_orthogonals (bmp : Bitmap) (top_left : Point) : Point :=
  square_move_loop bmp top_left (bmp.dimensions.width - top_left.x) top_left.x top_left.y

/-- The shrinking fallback loop of `square_find_largest_square`: try the
candidate `(x, y)` bottom-right corner, decrementing both coordinates until a
size verifies (`square_set_max_square`, then break) or `x` drops below the
anchor column.  Structural recursion on `x`.  When `x = 0 = top_left.x` and
verification fails, the C program would wrap its unsigned counter; that state
is unreachable from the scanner (see the C10 theorem below), and this model
returns `(max, max_length)` there. -/
def square_shrink (bmp : Bitmap) (top_left : Point) :
    Nat → Nat → ShapeGeometry → Nat → ShapeGeometry × Nat
  | x, y, max, max_length =>
    if x < top_left.x then (max, max_length)
    else if square_found_valid_square bmp top_left (point_ctor x y) = true then
      square_set_max_square max max_length
        (shape_geometry_ctor top_left (point_ctor x y))
    else
      match x with
      | 0 => (max, max_length)
      | x' + 1 => square_shrink bmp top_left x' (y - 1) max max_length

/-- The body of one `square_find_largest_square` iteration at a filled
anchor `top_left` that survived the remaining-area pruning: the candidate
skip, the direct verification of the probe's corner, and otherwise the
shrinking fallback; returns the updated `(max, max_length)`.  The C program
stores `square_move_along_orthogonals` in `expected_bottom_right` once; the
probe is pure, so repeating the call is equivalent. -/
def square_anchor_step (bmp : Bitmap) (top_left : Point)
    (max : ShapeGeometry) (max_length : Nat) : ShapeGeometry × Nat :=
  if max_length > (square_move_along_orthogonals bmp top_left).x - top_left.x + 1 then
    (max, max_length)
  else if square_found_valid_square bmp top_left
      (square_move_along_orthogonals bmp top_left) = true then
    square_set_max_square max max_length
      (shape_geometry_ctor top_left (square_move_along_orthogonals bmp top_left))
  else
    square_shrink bmp top_left (square_move_along_orthogonals bmp top_left).x
      (square_move_along_orthogonals bmp top_left).y max max_length

/-- The anchor loop of `square_find_largest_square`, index `i` over
`0 ..< width*height` (`row = i / width`, `col = i % width`).  Fuel: `i`
increments by exactly one per iteration, so `width*height` initial fuel is
exact (on fuel exhaustion `i ≥ width*height`, where the C loop exits
returning `max`). -/
def square_scan_fuel (bmp : Bitmap) :
    Nat → Nat → ShapeGeometry → Nat → ShapeGeometry
  | 0, _, max, _ => max
  | fuel + 1, i, max, max_length =>
    if i < bmp.dimensions.width * bmp.dimensions.height then
      if bmp.data.getD i false = false then
        square_scan_fuel bmp fuel (i + 1) max max_length
      else if max_length * max_length ≥
          (bmp.dimensions.height - i / bmp.dimensions.width) * bmp.dimensions.width then
        max
      else
        square_scan_fuel bmp fuel (i + 1)
          (square_anchor_step bmp
            (point_ctor (i % bmp.dimensions.width) (i / bmp.dimensions.width))
            max max_length).1
          (square_anchor_step bmp
            (point_ctor (i % bmp.dimensions.width) (i / bmp.dimensions.width))
            max max_length).2
    else max

/-- `square_find_largest_square`. -/
def square_find_largest_square (bmp : Bitmap) : ShapeGeometry :=
  square_scan_fuel bmp (bmp.dimensions.width * bmp.dimensions.height) 0
    shape_geometry_invalid_ctor 0

example :
    square_find_largest_square
      ⟨⟨3, 3⟩, [true, true, true, true, false, true, true, true, true]⟩ =
      shape_geometry_ctor (point_ctor 0 0) (point_ctor 2 2) := by decide

example :
    shape_geometry_is_invalid (square_find_largest_square ⟨⟨1, 1⟩, [false]⟩) = true := by
  decide

/- =========================================
   Bitmap loader
   ========================================= -/

/-- `bmp_valid_whitespace`: C `isspace` (space, TAB, LF, VT, FF, CR). -/
def bmp_valid_whitespace (c : Char) : Bool :=
  c == ' ' || c == '\t' || c == '\n' || c == '\x0b' || c == '\x0c' || c == '\r'

/-- `bmp_valid_pix`: the two pixel characters. -/
def bmp_valid_pix (c : Char) : Bool := c == '1' || c == '0'

/-- `bmp_loader_ignore_whitespace`: stream the remaining characters, skipping
whitespace, storing pixels (failing with the raw-size error when the staging
buffer is already full), and failing on anything else.  The accumulated
staging buffer holds `true` for `'1'`. -/
def bmp_loader_ignore_whitespace (cap : Nat) :
    List Char → List Bool → Except LoadError (List Bool)
  | [], acc => .ok acc
  | c :: cs, acc =>
    if bmp_valid_whitespace c = true then bmp_loader_ignore_whitespace cap cs acc
    else if bmp_valid_pix c = true then
      if cap ≤ acc.length then .error .rawSizeMismatch
      else bmp_loader_ignore_whitespace cap cs (acc ++ [c == '1'])
    else .error (.unexpectedCharacter c)

/-- The leading-whitespace skip performed by `fscanf("%u")`. -/
def skip_scanf_whitespace : List Char → List Char
  | [] => []
  | c :: cs => if bmp_valid_whitespace c = true then skip_scanf_whitespace cs else c :: cs

/-- The digit-run consumption of `fscanf("%u")`. -/
def read_digits : List Char → Nat → Nat × List Char
  | [], acc => (acc, [])
  | c :: cs, acc =>
    if c.isDigit then read_digits cs (acc * 10 + (c.toNat - 48)) else (acc, c :: cs)

/-- The value `%u` stores for a `'-'`-signed digit run: `strtoul` negates
the converted value in unsigned arithmetic, and the store into a `uint32_t`
object keeps it modulo `2^32`. -/
def u32_negate (v : Nat) : Nat := (U32_MOD - v % U32_MOD) % U32_MOD

/-- The value `%u` stores for a digit run behind an optional sign. -/
def scanf_u32_value (neg : Bool) (v : Nat) : Nat := if neg then u32_negate v else v

/-- The digit run that `%u` requires directly behind an explicit sign
character: at least one digit, no further whitespace skip. -/
def scanf_u32_signed_run : List Char → Bool → Except LoadError (Nat × List Char)
  | [], _ => .error .invalidDimensionToken
  | d :: ds, neg =>
    if d.isDigit then
      if scanf_u32_value neg (read_digits (d :: ds) 0).1 = 0 then
        .error .invalidDimensionZero
      else .ok (scanf_u32_value neg (read_digits (d :: ds) 0).1, (read_digits (d :: ds) 0).2)
    else .error .invalidDimensionToken

/-- `bmp_loader_load_dimension`: one `fscanf("%" SCNu32)` call followed by
the zero check.  `%u` matches an optionally signed decimal digit run with
`strtoul` semantics: an optional single `'+'` or `'-'` immediately followed
by at least one digit (`'-'` negates the converted value in `uint32_t`
arithmetic); end of input, any other first character, or a sign with no
digit directly after it is a matching failure. -/
def bmp_loader_load_dimension (input : List Char) :
    Except LoadError (Nat × List Char) :=
  match skip_scanf_whitespace input with
  | [] => .error .invalidDimensionToken
  | c :: cs =>
    if c.isDigit then
      if (read_digits (c :: cs) 0).1 = 0 then .error .invalidDimensionZero
      else .ok (read_digits (c :: cs) 0)
    else if c = '+' then scanf_u32_signed_run cs false
    else if c = '-' then scanf_u32_signed_run cs true
    else .error .invalidDimensionToken

/-- `bmp_loader_load_size`: height first, then width. -/
def bmp_loader_load_size (input : List Char) :
    Except LoadError (BitmapSize × List Char) :=
  match bmp_loader_load_dimension input with
  | .error e => .error e
  | .ok (h, r1) =>
    match bmp_loader_load_dimension r1 with
    | .error e => .error e
    | .ok (w, r2) => .ok (⟨w, h⟩, r2)

/-- `bmp_loader_load` on an already-opened file (the `fopen` failure exit is
about the file system, not the file's content, and is not modelled): parse
the dimensions, stream the pixels, and require the exact declared count. -/
def bmp_loader_load (input : List Char) : Except LoadError Bitmap :=
  match bmp_loader_load_size input with
  | .error e => .error e
  | .ok (size, rest) =>
    match bmp_loader_ignore_whitespace (bmp_size_raw size) rest [] with
    | .error e => .error e
    | .ok pixels =>
      if pixels.length ≠ bmp_size_raw size then
        .error (.pixelCountMismatch pixels.length (bmp_size_raw size))
      else .ok ⟨size, pixels⟩

/- ---- serialization (the round-trip construction of claim C8) ---- -/

def digit_char : Nat → Char
  | 0 => '0' | 1 => '1' | 2 => '2' | 3 => '3' | 4 => '4'
  | 5 => '5' | 6 => '6' | 7 => '7' | 8 => '8' | _ => '9'

/-- Decimal digits of `n`, most significant first.  Fuel: the value shrinks
to `n / 10` each step, so `n + 1` fuel is never exhausted. -/
def nat_digits_fuel : Nat → Nat → List Char
  | 0, _ => []
  | fuel + 1, n =>
    if n < 10 then [digit_char n]
    else nat_digits_fuel fuel (n / 10) ++ [digit_char (n % 10)]

def nat_digits (n : Nat) : List Char := nat_digits_fuel (n + 1) n

def pixel_char (b : Bool) : Char := if b then '1' else '0'

/-- The re-serialization described by claim C8 (stated from the spec's words:
dimensions — height then width, as the format stores them — followed by the
pixel buffer in row-major order as `'0'`/`'1'` characters). -/
def bmp_serialize (bmp : Bitmap) : List Char :=
  nat_digits bmp.dimensions.height ++
    ' ' :: (nat_digits bmp.dimensions.width ++ '\n' :: bmp.data.map pixel_char)

/-- The pixels denoted by a whitespace/pixel character stream. -/
def pix_chars (cs : List Char) : List Bool :=
  cs.filterMap (fun c => if bmp_valid_pix c = true then some (c == '1') else none)

deriving instance DecidableEq for Except

example :
    bmp_loader_load "2 3\n111\n010\n".toList =
      .ok ⟨⟨3, 2⟩, [true, true, true, false, true, false]⟩ := by decide

example :
    bmp_loader_load "2 2\n111\n".toList = .error (.pixelCountMismatch 3 4) := by decide

example :
    bmp_loader_load "2 2\n11111\n".toList = .error .rawSizeMismatch := by decide

example :
    bmp_loader_load "2 2\n1x\n11\n".toList = .error (.unexpectedCharacter 'x') := by decide

example : bmp_loader_load "1 1\n0\n".toList = .ok ⟨⟨1, 1⟩, [false]⟩ := by decide

example : bmp_serialize ⟨⟨3, 2⟩, [true, true, true, false, true, false]⟩ =
    "2 3\n111010".toList := by decide

/- =========================================
   Basic facts about the line scans
   ========================================= -/

theorem hline_scan_fuel_ge (bmp : Bitmap) (row : Nat) :
    ∀ fuel x, x ≤ hline_scan_fuel bmp row fuel x := by
  intro fuel
  induction fuel with
  | zero => intro x; exact Nat.le_refl x
  | succ n ih =>
    intro x
    by_cases h : x < bmp.dimensions.width ∧ bmp_at bmp row x = true
    · rw [hline_scan_fuel, if_pos h]
      exact Nat.le_trans (Nat.le_succ x) (ih (x + 1))
    · rw [hline_scan_fuel, if_neg h]

theorem hline_scan_fuel_le (bmp : Bitmap) (row : Nat) :
    ∀ fuel x, x ≤ bmp.dimensions.width →
      hline_scan_fuel bmp row fuel x ≤ bmp.dimensions.width := by
  intro fuel
  induction fuel with
  | zero => intro x hx; exact hx
  | succ n ih =>
    intro x hx
    by_cases h : x < bmp.dimensions.width ∧ bmp_at bmp row x = true
    · rw [hline_scan_fuel, if_pos h]
      exact ih (x + 1) h.1
    · rw [hline_scan_fuel, if_neg h]
      exact hx

theorem hline_scan_fuel_filled (bmp : Bitmap) (row : Nat) :
    ∀ fuel x z, x ≤ z → z < hline_scan_fuel bmp row fuel x →
      bmp_at bmp row z = true := by
  intro fuel
  induction fuel with
  | zero =>
    intro x z hxz hz
    exact absurd (Nat.lt_of_le_of_lt hxz hz) (Nat.lt_irrefl x)
  | succ n ih =>
    intro x z hxz hz
    by_cases h : x < bmp.dimensions.width ∧ bmp_at bmp row x = true
    · rw [hline_scan_fuel, if_pos h] at hz
      rcases Nat.lt_or_ge z (x + 1) with hlt | hge
      · have : z = x := Nat.le_antisymm (Nat.lt_succ_iff.mp hlt) hxz
        rw [this]; exact h.2
      · exact ih (x + 1) z hge hz
    · rw [hline_scan_fuel, if_neg h] at hz
      exact absurd (Nat.lt_of_le_of_lt hxz hz) (Nat.lt_irrefl x)

theorem hline_scan_fuel_stop (bmp : Bitmap) (row : Nat) :
    ∀ fuel x, bmp.dimensions.width ≤ x + fuel →
      hline_scan_fuel bmp row fuel x < bmp.dimensions.width →
      bmp_at bmp row (hline_scan_fuel bmp row fuel x) = false := by
  intro fuel
  induction fuel with
  | zero =>
    intro x hw hlt
    rw [hline_scan_fuel] at hlt
    exact absurd hlt (Nat.not_lt.mpr hw)
  | succ n ih =>
    intro x hw hlt
    by_cases h : x < bmp.dimensions.width ∧ bmp_at bmp row x = true
    · rw [hline_scan_fuel, if_pos h] at hlt ⊢
      exact ih (x + 1) (by omega) hlt
    · rw [hline_scan_fuel, if_neg h] at hlt ⊢
      rcases Nat.lt_or_ge x bmp.dimensions.width with hx | hx
      · have : ¬bmp_at bmp row x = true := fun ht => h ⟨hx, ht⟩
        exact Bool.not_eq_true _ ▸ eq_false_of_ne_true this
      · exact absurd hlt (Nat.not_lt.mpr hx)

theorem vline_scan_fuel_ge (bmp : Bitmap) (col : Nat) :
    ∀ fuel y, y ≤ vline_scan_fuel bmp col fuel y := by
  intro fuel
  induction fuel with
  | zero => intro y; exact Nat.le_refl y
  | succ n ih =>
    intro y
    by_cases h : y < bmp.dimensions.height ∧ bmp_at bmp y col = true
    · rw [vline_scan_fuel, if_pos h]
      exact Nat.le_trans (Nat.le_succ y) (ih (y + 1))
    · rw [vline_scan_fuel, if_neg h]

theorem vline_scan_fuel_le (bmp : Bitmap) (col : Nat) :
    ∀ fuel y, y ≤ bmp.dimensions.height →
      vline_scan_fuel bmp col fuel y ≤ bmp.dimensions.height := by
  intro fuel
  induction fuel with
  | zero => intro y hy; exact hy
  | succ n ih =>
    intro y hy
    by_cases h : y < bmp.dimensions.height ∧ bmp_at bmp y col = true
    · rw [vline_scan_fuel, if_pos h]
      exact ih (y + 1) h.1
    · rw [vline_scan_fuel, if_neg h]
      exact hy

theorem vline_scan_fuel_filled (bmp : Bitmap) (col : Nat) :
    ∀ fuel y z, y ≤ z → z < vline_scan_fuel bmp col fuel y →
      bmp_at bmp z col = true := by
  intro fuel
  induction fuel with
  | zero =>
    intro y z hyz hz
    exact absurd (Nat.lt_of_le_of_lt hyz hz) (Nat.lt_irrefl y)
  | succ n ih =>
    intro y z hyz hz
    by_cases h : y < bmp.dimensions.height ∧ bmp_at bmp y col = true
    · rw [vline_scan_fuel, if_pos h] at hz
      rcases Nat.lt_or_ge z (y + 1) with hlt | hge
      · have : z = y := Nat.le_antisymm (Nat.lt_succ_iff.mp hlt) hyz
        rw [this]; exact h.2
      · exact ih (y + 1) z hge hz
    · rw [vline_scan_fuel, if_neg h] at hz
      exact absurd (Nat.lt_of_le_of_lt hyz hz) (Nat.lt_irrefl y)

theorem vline_scan_fuel_stop (bmp : Bitmap) (col : Nat) :
    ∀ fuel y, bmp.dimensions.height ≤ y + fuel →
      vline_scan_fuel bmp col fuel y < bmp.dimensions.height →
      bmp_at bmp (vline_scan_fuel bmp col fuel y) col = false := by
  intro fuel
  induction fuel with
  | zero =>
    intro y hw hlt
    rw [vline_scan_fuel] at hlt
    exact absurd hlt (Nat.not_lt.mpr hw)
  | succ n ih =>
    intro y hw hlt
    by_cases h : y < bmp.dimensions.height ∧ bmp_at bmp y col = true
    · rw [vline_scan_fuel, if_pos h] at hlt ⊢
      exact ih (y + 1) (by omega) hlt
    · rw [vline_scan_fuel, if_neg h] at hlt ⊢
      rcases Nat.lt_or_ge y bmp.dimensions.height with hy | hy
      · have : ¬bmp_at bmp y col = true := fun ht => h ⟨hy, ht⟩
        exact Bool.not_eq_true _ ▸ eq_false_of_ne_true this
      · exact absurd hlt (Nat.not_lt.mpr hy)

theorem line_find_hline_eq (bmp : Bitmap) (p : Point)
    (h : bmp_at bmp p.y p.x = true) :
    line_find_hline bmp p =
      shape_geometry_ctor p (point_ctor (hline_scan bmp p.y (p.x + 1) - 1) p.y) := by
  rw [line_find_hline, if_pos h]

theorem line_find_hline_start_le (bmp : Bitmap) (p : Point)
    (h : bmp_at bmp p.y p.x = true) :
    p.x ≤ (line_find_hline bmp p).end_.x := by
  rw [line_find_hline_eq bmp p h]
  have := hline_scan_fuel_ge bmp p.y (bmp.dimensions.width - (p.x + 1)) (p.x + 1)
  show p.x ≤ hline_scan bmp p.y (p.x + 1) - 1
  rw [hline_scan]
  omega

theorem line_find_hline_filled (bmp : Bitmap) (p : Point)
    (h : bmp_at bmp p.y p.x = true) :
    ∀ z, p.x ≤ z → z ≤ (line_find_hline bmp p).end_.x → bmp_at bmp p.y z = true := by
  intro z hz1 hz2
  rw [line_find_hline_eq bmp p h] at hz2
  have hge := hline_scan_fuel_ge bmp p.y (bmp.dimensions.width - (p.x + 1)) (p.x + 1)
  show bmp_at bmp p.y z = true
  rcases Nat.lt_or_ge z (p.x + 1) with hlt | hge2
  · have : z = p.x := by omega
    rw [this]; exact h
  · refine hline_scan_fuel_filled bmp p.y (bmp.dimensions.width - (p.x + 1)) (p.x + 1) z hge2 ?_
    simp only [shape_geometry_ctor, point_ctor] at hz2
    rw [hline_scan] at hz2
    omega

theorem line_find_hline_end_lt (bmp : Bitmap) (p : Point)
    (h : bmp_at bmp p.y p.x = true) (hx : p.x < bmp.dimensions.width) :
    (line_find_hline bmp p).end_.x < bmp.dimensions.width := by
  rw [line_find_hline_eq bmp p h]
  have hle := hline_scan_fuel_le bmp p.y (bmp.dimensions.width - (p.x + 1)) (p.x + 1) hx
  have hge := hline_scan_fuel_ge bmp p.y (bmp.dimensions.width - (p.x + 1)) (p.x + 1)
  show hline_scan bmp p.y (p.x + 1) - 1 < bmp.dimensions.width
  rw [hline_scan]
  omega

theorem line_find_hline_max (bmp : Bitmap) (p : Point)
    (h : bmp_at bmp p.y p.x = true) (hx : p.x < bmp.dimensions.width) :
    (line_find_hline bmp p).end_.x + 1 < bmp.dimensions.width →
      bmp_at bmp p.y ((line_find_hline bmp p).end_.x + 1) = false := by
  rw [line_find_hline_eq bmp p h]
  have hge := hline_scan_fuel_ge bmp p.y (bmp.dimensions.width - (p.x + 1)) (p.x + 1)
  show hline_scan bmp p.y (p.x + 1) - 1 + 1 < bmp.dimensions.width →
    bmp_at bmp p.y (hline_scan bmp p.y (p.x + 1) - 1 + 1) = false
  rw [hline_scan]
  intro htop
  have heq : hline_scan_fuel bmp p.y (bmp.dimensions.width - (p.x + 1)) (p.x + 1) - 1 + 1 =
      hline_scan_fuel bmp p.y (bmp.dimensions.width - (p.x + 1)) (p.x + 1) := by omega
  rw [heq] at htop ⊢
  exact hline_scan_fuel_stop bmp p.y _ (p.x + 1) (by omega) htop

theorem line_find_vline_eq (bmp : Bitmap) (p : Point)
    (h : bmp_at bmp p.y p.x = true) :
    line_find_vline bmp p =
      shape_geometry_ctor p (point_ctor p.x (vline_scan bmp p.x (p.y + 1) - 1)) := by
  rw [line_find_vline, if_pos h]

theorem line_find_vline_start_le (bmp : Bitmap) (p : Point)
    (h : bmp_at bmp p.y p.x = true) :
    p.y ≤ (line_find_vline bmp p).end_.y := by
  rw [line_find_vline_eq bmp p h]
  have := vline_scan_fuel_ge bmp p.x (bmp.dimensions.height - (p.y + 1)) (p.y + 1)
  show p.y ≤ vline_scan bmp p.x (p.y + 1) - 1
  rw [vline_scan]
  omega

theorem line_find_vline_filled (bmp : Bitmap) (p : Point)
    (h : bmp_at bmp p.y p.x = true) :
    ∀ z, p.y ≤ z → z ≤ (line_find_vline bmp p).end_.y → bmp_at bmp z p.x = true := by
  intro z hz1 hz2
  rw [line_find_vline_eq bmp p h] at hz2
  have hge := vline_scan_fuel_ge bmp p.x (bmp.dimensions.height - (p.y + 1)) (p.y + 1)
  rcases Nat.lt_or_ge z (p.y + 1) with hlt | hge2
  · have : z = p.y := by omega
    rw [this]; exact h
  · refine vline_scan_fuel_filled bmp p.x (bmp.dimensions.height - (p.y + 1)) (p.y + 1) z hge2 ?_
    simp only [shape_geometry_ctor, point_ctor] at hz2
    rw [vline_scan] at hz2
    omega

theorem line_find_vline_end_lt (bmp : Bitmap) (p : Point)
    (h : bmp_at bmp p.y p.x = true) (hy : p.y < bmp.dimensions.height) :
    (line_find_vline bmp p).end_.y < bmp.dimensions.height := by
  rw [line_find_vline_eq bmp p h]
  have hle := vline_scan_fuel_le bmp p.x (bmp.dimensions.height - (p.y + 1)) (p.y + 1) hy
  have hge := vline_scan_fuel_ge bmp p.x (bmp.dimensions.height - (p.y + 1)) (p.y + 1)
  show vline_scan bmp p.x (p.y + 1) - 1 < bmp.dimensions.height
  rw [vline_scan]
  omega

theorem line_find_vline_max (bmp : Bitmap) (p : Point)
    (h : bmp_at bmp p.y p.x = true) (hy : p.y < bmp.dimensions.height) :
    (line_find_vline bmp p).end_.y + 1 < bmp.dimensions.height →
      bmp_at bmp ((line_find_vline bmp p).end_.y + 1) p.x = false := by
  rw [line_find_vline_eq bmp p h]
  have hge := vline_scan_fuel_ge bmp p.x (bmp.dimensions.height - (p.y + 1)) (p.y + 1)
  show vline_scan bmp p.x (p.y + 1) - 1 + 1 < bmp.dimensions.height →
    bmp_at bmp (vline_scan bmp p.x (p.y + 1) - 1 + 1) p.x = false
  rw [vline_scan]
  intro htop
  have heq : vline_scan_fuel bmp p.x (bmp.dimensions.height - (p.y + 1)) (p.y + 1) - 1 + 1 =
      vline_scan_fuel bmp p.x (bmp.dimensions.height - (p.y + 1)) (p.y + 1) := by omega
  rw [heq] at htop ⊢
  exact vline_scan_fuel_stop bmp p.x _ (p.y + 1) (by omega) htop

theorem line_find_hline_invalid (bmp : Bitmap) (p : Point)
    (h : bmp_at bmp p.y p.x = false) :
    line_find_hline bmp p = shape_geometry_invalid_ctor := by
  rw [line_find_hline, if_neg (by simp [h])]

theorem line_find_vline_invalid (bmp : Bitmap) (p : Point)
    (h : bmp_at bmp p.y p.x = false) :
    line_find_vline bmp p = shape_geometry_invalid_ctor := by
  rw [line_find_vline, if_neg (by simp [h])]

/- =========================================
   The diagonal probe
   ========================================= -/

/-- What `square_move_along_orthogonals` guarantees about its result `B` when
started on a filled, in-range anchor: `B` is the far corner of a diagonal
whose two orthogonal rays (rightwards along the anchor row, downwards along
the anchor column) are filled throughout, and `B` stays in range. -/
def probe_ok (bmp : Bitmap) (tl B : Point) : Prop :=
  tl.x ≤ B.x ∧ tl.y ≤ B.y ∧ B.x - tl.x = B.y - tl.y ∧
  B.x < bmp.dimensions.width ∧ B.y < bmp.dimensions.height ∧
  (∀ z, tl.x ≤ z → z ≤ B.x → bmp_at bmp tl.y z = true) ∧
  (∀ z, tl.y ≤ z → z ≤ B.y → bmp_at bmp z tl.x = true)

theorem square_move_loop_spec (bmp : Bitmap) (tl : Point) :
    ∀ fuel x y,
      tl.x < x → tl.y < y → x - tl.x = y - tl.y →
      x ≤ bmp.dimensions.width → y ≤ bmp.dimensions.height →
      bmp.dimensions.width ≤ x + fuel →
      (∀ z, tl.x ≤ z → z < x → bmp_at bmp tl.y z = true) →
      (∀ z, tl.y ≤ z → z < y → bmp_at bmp z tl.x = true) →
      probe_ok bmp tl (square_move_loop bmp tl fuel x y) := by
  intro fuel
  induction fuel with
  | zero =>
    intro x y hx hy hd hxw hyh hfuel hrow hcol
    rw [square_move_loop]
    exact ⟨by simp [point_ctor]; omega, by simp [point_ctor]; omega,
      by simp [point_ctor]; omega, by simp [point_ctor]; omega,
      by simp [point_ctor]; omega,
      fun z h1 h2 => hrow z h1 (by simp [point_ctor] at h2; omega),
      fun z h1 h2 => hcol z h1 (by simp [point_ctor] at h2; omega)⟩
  | succ n ih =>
    intro x y hx hy hd hxw hyh hfuel hrow hcol
    rw [square_move_loop]
    by_cases g1 : x ≥ bmp.dimensions.width ∨ bmp_at bmp tl.y x = false
    · rw [if_pos g1]
      exact ⟨by simp [point_ctor]; omega, by simp [point_ctor]; omega,
        by simp [point_ctor]; omega, by simp [point_ctor]; omega,
        by simp [point_ctor]; omega,
        fun z h1 h2 => hrow z h1 (by simp [point_ctor] at h2; omega),
        fun z h1 h2 => hcol z h1 (by simp [point_ctor] at h2; omega)⟩
    · rw [if_neg g1]
      by_cases g2 : y ≥ bmp.dimensions.height ∨ bmp_at bmp y tl.x = false
      · rw [if_pos g2]
        exact ⟨by simp [point_ctor]; omega, by simp [point_ctor]; omega,
          by simp [point_ctor]; omega, by simp [point_ctor]; omega,
          by simp [point_ctor]; omega,
          fun z h1 h2 => hrow z h1 (by simp [point_ctor] at h2; omega),
          fun z h1 h2 => hcol z h1 (by simp [point_ctor] at h2; omega)⟩
      · rw [if_neg g2]
        push_neg at g1 g2
        have hxfill : bmp_at bmp tl.y x = true := by simpa using g1.2
        have hyfill : bmp_at bmp y tl.x = true := by simpa using g2.2
        refine ih (x + 1) (y + 1) (by omega) (by omega) (by omega)
          (by omega) (by omega) (by omega) ?_ ?_
        · intro z h1 h2
          rcases Nat.lt_or_ge z x with hzx | hzx
          · exact hrow z h1 hzx
          · have : z = x := by omega
            rw [this]; exact hxfill
        · intro z h1 h2
          rcases Nat.lt_or_ge z y with hzy | hzy
          · exact hcol z h1 hzy
          · have : z = y := by omega
            rw [this]; exact hyfill

theorem square_move_spec (bmp : Bitmap) (tl : Point)
    (hfill : bmp_at bmp tl.y tl.x = true)
    (hx : tl.x < bmp.dimensions.width) (hy : tl.y < bmp.dimensions.height) :
    probe_ok bmp tl (square_move_along_orthogonals bmp tl) := by
  obtain ⟨f, hf⟩ : ∃ f, bmp.dimensions.width - tl.x = f + 1 :=
    ⟨bmp.dimensions.width - tl.x - 1, by omega⟩
  rw [square_move_along_orthogonals, hf, square_move_loop]
  rw [if_neg (by simp [hfill]; omega)]
  rw [if_neg (by simp [hfill]; omega)]
  refine square_move_loop_spec bmp tl f (tl.x + 1) (tl.y + 1)
    (by omega) (by omega) (by omega) (by omega) (by omega) (by omega) ?_ ?_
  · intro z h1 h2
    have : z = tl.x := by omega
    rw [this]; exact hfill
  · intro z h1 h2
    have : z = tl.y := by omega
    rw [this]; exact hfill

/- =========================================
   Border verification and the shrinking fallback
   ========================================= -/

theorem square_found_valid_spec (bmp : Bitmap) (tl br : Point)
    (hbl : bmp_at bmp br.y tl.x = true) (htr : bmp_at bmp tl.y br.x = true)
    (hv : square_found_valid_square bmp tl br = true) :
    (∀ z, tl.x ≤ z → z ≤ br.x → bmp_at bmp br.y z = true) ∧
    (∀ z, tl.y ≤ z → z ≤ br.y → bmp_at bmp z br.x = true) := by
  simp only [square_found_valid_square, square_find_horizontal_side,
    square_find_vertical_side, Bool.and_eq_true, decide_eq_true_eq] at hv
  constructor
  · intro z h1 h2
    have := line_find_hline_filled bmp (point_ctor tl.x br.y) hbl z h1
      (Nat.le_trans h2 hv.1)
    exact this
  · intro z h1 h2
    have := line_find_vline_filled bmp (point_ctor br.x tl.y) htr z h1
      (Nat.le_trans h2 hv.2)
    exact this

/-- A 1×1 candidate sitting exactly on a filled anchor always verifies. -/
theorem square_found_valid_self (bmp : Bitmap) (tl : Point)
    (hfill : bmp_at bmp tl.y tl.x = true) :
    square_found_valid_square bmp tl tl = true := by
  simp only [square_found_valid_square, square_find_horizontal_side,
    square_find_vertical_side, Bool.and_eq_true, decide_eq_true_eq]
  exact ⟨line_find_hline_start_le bmp (point_ctor tl.x tl.y) hfill,
    line_find_vline_start_le bmp (point_ctor tl.x tl.y) hfill⟩

theorem square_set_max_square_cases (max : ShapeGeometry) (max_length : Nat)
    (rhs : ShapeGeometry) :
    square_set_max_square max max_length rhs = (max, max_length) ∨
    square_set_max_square max max_length rhs = (rhs, square_side_length rhs) := by
  rw [square_set_max_square]
  by_cases h : shape_geometry_is_invalid max = true ∨ square_cmp max rhs < 0
  · rw [if_pos h]; right; rfl
  · rw [if_neg h]; left; rfl

/-- Claim C10 (shrinking fallback): started anywhere on the anchor's
diagonal, the fallback loop of `square_find_largest_square` always exits
through `square_set_max_square` at a verified size whose bottom-right column
is still at or past the anchor column — the unsigned counter never has to
wrap, because the 1×1 candidate at the anchor itself always verifies. -/
theorem spec_c10_shrink_terminates (bmp : Bitmap) (tl : Point)
    (x y : Nat) (max : ShapeGeometry) (max_length : Nat)
    (hfill : bmp_at bmp tl.y tl.x = true)
    (hx : tl.x ≤ x) (hy : tl.y ≤ y) (hd : x - tl.x = y - tl.y) :
    ∃ x' y', tl.x ≤ x' ∧ x' ≤ x ∧ tl.y ≤ y' ∧ y' - tl.y = x' - tl.x ∧
      square_found_valid_square bmp tl (point_ctor x' y') = true ∧
      square_shrink bmp tl x y max max_length =
        square_set_max_square max max_length
          (shape_geometry_ctor tl (point_ctor x' y')) := by
  induction x generalizing y with
  | zero =>
    have hx0 : tl.x = 0 := Nat.le_zero.mp hx
    have hy0 : y = tl.y := by omega
    have htl : point_ctor 0 y = tl := by
      have h1 : (0 : Nat) = tl.x := hx0.symm
      rw [point_ctor, h1, hy0]
    have hvalid : square_found_valid_square bmp tl (point_ctor 0 y) = true := by
      rw [htl]; exact square_found_valid_self bmp tl hfill
    rw [square_shrink, if_neg (by omega), if_pos hvalid]
    exact ⟨0, y, by omega, Nat.le_refl 0, hy, by omega, hvalid, rfl⟩
  | succ n ih =>
    rw [square_shrink]
    rw [if_neg (by omega)]
    by_cases hv : square_found_valid_square bmp tl (point_ctor (n + 1) y) = true
    · rw [if_pos hv]
      exact ⟨n + 1, y, hx, Nat.le_refl _, hy, by omega, hv, rfl⟩
    · rw [if_neg hv]
      have hne : tl.x ≠ n + 1 := by
        intro heq
        apply hv
        have hy0 : y = tl.y := by omega
        have htl : point_ctor (n + 1) y = tl := by
          have h1 : n + 1 = tl.x := heq.symm
          rw [point_ctor, h1, hy0]
        rw [htl]
        exact square_found_valid_self bmp tl hfill
      have hx' : tl.x ≤ n := by omega
      have hy' : tl.y ≤ y - 1 := by omega
      obtain ⟨x', y', p1, p2, p3, p4, p5, p6⟩ :=
        ih (y - 1) hx' hy' (by omega)
      exact ⟨x', y', p1, by omega, p3, p4, p5, p6⟩

/- =========================================
   Validity of every square the scanner can report (claim C1)
   ========================================= -/

/-- The property claim C1 asserts of a reported square: a true square, inside
the bitmap, with all four border segments filled (`z` ranges over the offsets
of the two horizontal segments resp. the two vertical segments). -/
def good_square (bmp : Bitmap) (s : ShapeGeometry) : Prop :=
  s.start.x ≤ s.end_.x ∧ s.start.y ≤ s.end_.y ∧
  s.end_.x - s.start.x = s.end_.y - s.start.y ∧
  s.end_.x < bmp.dimensions.width ∧ s.end_.y < bmp.dimensions.height ∧
  (∀ z, s.start.x ≤ z → z ≤ s.end_.x →
    bmp_at bmp s.start.y z = true ∧ bmp_at bmp s.end_.y z = true) ∧
  (∀ z, s.start.y ≤ z → z ≤ s.end_.y →
    bmp_at bmp z s.start.x = true ∧ bmp_at bmp z s.end_.x = true)

/-- Any candidate `(top_left, c)` that the scanner verifies, with `c` on the
anchor's diagonal and not beyond the probe's corner, is a good square. -/
theorem candidate_good (bmp : Bitmap) (tl B c : Point)
    (hprobe : probe_ok bmp tl B)
    (hx1 : tl.x ≤ c.x) (hx2 : c.x ≤ B.x) (hcy : c.y = tl.y + (c.x - tl.x))
    (hv : square_found_valid_square bmp tl c = true) :
    good_square bmp (shape_geometry_ctor tl c) := by
  obtain ⟨hbx, hby, hbd, hbw, hbh, hrow, hcol⟩ := hprobe
  have hcyB : c.y ≤ B.y := by omega
  have hbl : bmp_at bmp c.y tl.x = true := hcol c.y (by omega) hcyB
  have htr : bmp_at bmp tl.y c.x = true := hrow c.x hx1 hx2
  obtain ⟨hbot, hright⟩ := square_found_valid_spec bmp tl c hbl htr hv
  simp only [good_square, shape_geometry_ctor]
  refine ⟨hx1, by omega, by omega, by omega, by omega, ?_, ?_⟩
  · intro z h1 h2
    exact ⟨hrow z h1 (by omega), hbot z h1 h2⟩
  · intro z h1 h2
    exact ⟨hcol z h1 (by omega), hright z h1 h2⟩

theorem square_shrink_below (bmp : Bitmap) (tl : Point) (x y : Nat)
    (max : ShapeGeometry) (max_length : Nat) (h : x < tl.x) :
    square_shrink bmp tl x y max max_length = (max, max_length) := by
  cases x with
  | zero => rw [square_shrink, if_pos h]
  | succ n => rw [square_shrink, if_pos h]

/-- The shrinking fallback only ever replaces `max` by a good square. -/
theorem square_shrink_good (bmp : Bitmap) (tl B : Point)
    (max : ShapeGeometry) (max_length : Nat) (hprobe : probe_ok bmp tl B) :
    ∀ x y, tl.x ≤ x → x ≤ B.x → y = tl.y + (x - tl.x) →
      (shape_geometry_is_invalid max = true ∨ good_square bmp max) →
      (shape_geometry_is_invalid (square_shrink bmp tl x y max max_length).1 = true ∨
        good_square bmp (square_shrink bmp tl x y max max_length).1) := by
  intro x
  induction x generalizing max max_length with
  | zero =>
    intro y hx1 hx2 hy hmax
    rw [square_shrink, if_neg (by omega)]
    by_cases hv : square_found_valid_square bmp tl (point_ctor 0 y) = true
    · rw [if_pos hv]
      rcases square_set_max_square_cases max max_length
          (shape_geometry_ctor tl (point_ctor 0 y)) with hc | hc
      · rw [hc]; exact hmax
      · rw [hc]
        right
        exact candidate_good bmp tl B (point_ctor 0 y) hprobe (by omega) hx2
          (by simp [point_ctor]; omega) hv
    · rw [if_neg hv]
      exact hmax
  | succ n ih =>
    intro y hx1 hx2 hy hmax
    rw [square_shrink, if_neg (by omega)]
    by_cases hv : square_found_valid_square bmp tl (point_ctor (n + 1) y) = true
    · rw [if_pos hv]
      rcases square_set_max_square_cases max max_length
          (shape_geometry_ctor tl (point_ctor (n + 1) y)) with hc | hc
      · rw [hc]; exact hmax
      · rw [hc]
        right
        exact candidate_good bmp tl B (point_ctor (n + 1) y) hprobe hx1 hx2
          (by simp [point_ctor]; omega) hv
    · rw [if_neg hv]
      show shape_geometry_is_invalid (square_shrink bmp tl n (y - 1) max max_length).1 = true ∨
        good_square bmp (square_shrink bmp tl n (y - 1) max max_length).1
      rcases Nat.lt_or_ge n tl.x with hlt | hge
      · rw [square_shrink_below bmp tl n (y - 1) max max_length hlt]
        exact hmax
      · exact ih max max_length (y - 1) hge (by omega) (by omega) hmax

theorem square_anchor_step_good (bmp : Bitmap) (top_left : Point)
    (max : ShapeGeometry) (max_length : Nat)
    (hfill : bmp_at bmp top_left.y top_left.x = true)
    (hx : top_left.x < bmp.dimensions.width)
    (hy : top_left.y < bmp.dimensions.height)
    (hmax : shape_geometry_is_invalid max = true ∨ good_square bmp max) :
    shape_geometry_is_invalid (square_anchor_step bmp top_left max max_length).1 = true ∨
      good_square bmp (square_anchor_step bmp top_left max max_length).1 := by
  have hprobe := square_move_spec bmp top_left hfill hx hy
  obtain ⟨p1, p2, p3, p4, p5, p6, p7⟩ := hprobe
  rw [square_anchor_step]
  split
  next hskip => exact hmax
  next hskip =>
    split
    next hv =>
      rcases square_set_max_square_cases max max_length
          (shape_geometry_ctor top_left
            (square_move_along_orthogonals bmp top_left)) with hc | hc
      · rw [hc]; exact hmax
      · rw [hc]
        right
        exact candidate_good bmp _ _ _ ⟨p1, p2, p3, p4, p5, p6, p7⟩ p1
          (Nat.le_refl _) (by omega) hv
    next hv =>
      exact square_shrink_good bmp top_left
        (square_move_along_orthogonals bmp top_left)
        max max_length ⟨p1, p2, p3, p4, p5, p6, p7⟩ _ _ p1 (Nat.le_refl _)
        (by omega) hmax

theorem square_scan_fuel_good (bmp : Bitmap) :
    ∀ fuel i max max_length,
      (shape_geometry_is_invalid max = true ∨ good_square bmp max) →
      (shape_geometry_is_invalid (square_scan_fuel bmp fuel i max max_length) = true ∨
        good_square bmp (square_scan_fuel bmp fuel i max max_length)) := by
  intro fuel
  induction fuel with
  | zero => intro i max ml hmax; rw [square_scan_fuel]; exact hmax
  | succ n ih =>
    intro i max ml hmax
    rw [square_scan_fuel]
    split
    next hi =>
      split
      next hpix => exact ih (i + 1) max ml hmax
      next hpix =>
        split
        next harea => exact hmax
        next harea =>
          have hw : 0 < bmp.dimensions.width := by
            rcases Nat.eq_zero_or_pos bmp.dimensions.width with h0 | h
            · rw [h0] at hi; simp at hi
            · exact h
          have hcol : i % bmp.dimensions.width < bmp.dimensions.width := Nat.mod_lt _ hw
          have hrow : i / bmp.dimensions.width < bmp.dimensions.height :=
            Nat.div_lt_of_lt_mul hi
          have hid : i / bmp.dimensions.width * bmp.dimensions.width +
              i % bmp.dimensions.width = i := by
            rw [Nat.mul_comm, Nat.div_add_mod]
          have hfill : bmp_at bmp (i / bmp.dimensions.width) (i % bmp.dimensions.width) = true := by
            rw [bmp_at]
            show bmp.data.getD
              (i / bmp.dimensions.width * bmp.dimensions.width + i % bmp.dimensions.width)
              false = true
            rw [hid]
            simpa using hpix
          exact ih (i + 1) _ _
            (square_anchor_step_good bmp
              (point_ctor (i % bmp.dimensions.width) (i / bmp.dimensions.width))
              max ml hfill hcol hrow hmax)
    next hi => exact hmax

/-- Claim C1: every square reported by `square_find_largest_square` that is
not the invalid sentinel is a true square lying inside the bitmap whose four
border segments are entirely filled. -/
theorem spec_c1_largest_square_valid (bmp : Bitmap)
    (h : shape_geometry_is_invalid (square_find_largest_square bmp) = false) :
    good_square bmp (square_find_largest_square bmp) := by
  have hstart : shape_geometry_is_invalid shape_geometry_invalid_ctor = true := by decide
  rcases square_scan_fuel_good bmp (bmp.dimensions.width * bmp.dimensions.height) 0
      shape_geometry_invalid_ctor 0 (Or.inl hstart) with hinv | hgood
  · rw [square_find_largest_square] at h
    rw [h] at hinv
    exact absurd hinv (by simp)
  · rw [square_find_largest_square]
    exact hgood

/-- Witness for C1 at the spec's Scenario 2 bitmap. -/
theorem spec_c1_largest_square_valid_witness :
    shape_geometry_is_invalid
        (square_find_largest_square
          ⟨⟨3, 3⟩, [true, true, true, true, false, true, true, true, true]⟩) = false ∧
      good_square ⟨⟨3, 3⟩, [true, true, true, true, false, true, true, true, true]⟩
        (square_find_largest_square
          ⟨⟨3, 3⟩, [true, true, true, true, false, true, true, true, true]⟩) :=
  ⟨by decide,
    spec_c1_largest_square_valid
      ⟨⟨3, 3⟩, [true, true, true, true, false, true, true, true, true]⟩ (by decide)⟩

/- =========================================
   Bounds-checked embedding of the scanners (claim C9)
   ========================================= -/

/-- The bounds-checked (`Option`-returning) embedding of `bmp_at`: `none` is
the out-of-range branch (`row/col` against the declared dimensions, the
bound-check §4.2 of the spec asks of debug builds). -/
def bmp_at_checked (bmp : Bitmap) (row col : Nat) : Option Bool :=
  if row < bmp.dimensions.height ∧ col < bmp.dimensions.width then
    some (bmp_at bmp row col)
  else none

def hline_scan_checked_fuel (bmp : Bitmap) (row : Nat) : Nat → Nat → Option Nat
  | 0, x => some x
  | fuel + 1, x =>
    if x < bmp.dimensions.width then
      match bmp_at_checked bmp row x with
      | none => none
      | some b =>
        if b = true then hline_scan_checked_fuel bmp row fuel (x + 1) else some x
    else some x

def line_find_hline_checked (bmp : Bitmap) (begin_ : Point) : Option ShapeGeometry :=
  match bmp_at_checked bmp begin_.y begin_.x with
  | none => none
  | some b =>
    if b = true then
      match hline_scan_checked_fuel bmp begin_.y
          (bmp.dimensions.width - (begin_.x + 1)) (begin_.x + 1) with
      | none => none
      | some e => some (shape_geometry_ctor begin_ (point_ctor (e - 1) begin_.y))
    else some shape_geometry_invalid_ctor

def vline_scan_checked_fuel (bmp : Bitmap) (col : Nat) : Nat → Nat → Option Nat
  | 0, y => some y
  | fuel + 1, y =>
    if y < bmp.dimensions.height then
      match bmp_at_checked bmp y col with
      | none => none
      | some b =>
        if b = true then vline_scan_checked_fuel bmp col fuel (y + 1) else some y
    else some y

def line_find_vline_checked (bmp : Bitmap) (begin_ : Point) : Option ShapeGeometry :=
  match bmp_at_checked bmp begin_.y begin_.x with
  | none => none
  | some b =>
    if b = true then
      match vline_scan_checked_fuel bmp begin_.x
          (bmp.dimensions.height - (begin_.y + 1)) (begin_.y + 1) with
      | none => none
      | some e => some (shape_geometry_ctor begin_ (point_ctor begin_.x (e - 1)))
    else some shape_geometry_invalid_ctor

def longest_hline_row_checked_fuel (bmp : Bitmap) (row : Nat) :
    Nat → Nat → ShapeGeometry → Nat → Option (ShapeGeometry × Nat)
  | 0, _, max, max_length => some (max, max_length)
  | fuel + 1, col, max, max_length =>
    if col < bmp.dimensions.width - max_length then
      match line_find_hline_checked bmp (point_ctor col row) with
      | none => none
      | some temp =>
        if shape_geometry_is_invalid temp = true then
          longest_hline_row_checked_fuel bmp row fuel (col + 1) max max_length
        else if shape_geometry_is_invalid max = true ∨ hline_cmp max temp < 0 then
          longest_hline_row_checked_fuel bmp row fuel (temp.end_.x + 1) temp
            (hline_length temp)
        else
          longest_hline_row_checked_fuel bmp row fuel (temp.end_.x + 1) max max_length
    else some (max, max_length)

def longest_hline_rows_checked_fuel (bmp : Bitmap) :
    Nat → Nat → ShapeGeometry → Nat → Option (ShapeGeometry × Nat)
  | 0, _, max, max_length => some (max, max_length)
  | fuel + 1, row, max, max_length =>
    if row < bmp.dimensions.height then
      match longest_hline_row_checked_fuel bmp row bmp.dimensions.width 0 max max_length with
      | none => none
      | some acc => longest_hline_rows_checked_fuel bmp fuel (row + 1) acc.1 acc.2
    else some (max, max_length)

def line_find_longest_hline_checked (bmp : Bitmap) : Option ShapeGeometry :=
  match longest_hline_rows_checked_fuel bmp bmp.dimensions.height 0
      shape_geometry_invalid_ctor 0 with
  | none => none
  | some acc => some acc.1

def longest_vline_col_checked_fuel (bmp : Bitmap) (col : Nat) :
    Nat → Nat → ShapeGeometry → Nat → Option (ShapeGeometry × Nat)
  | 0, _, max, max_length => some (max, max_length)
  | fuel + 1, row, max, max_length =>
    if row < bmp.dimensions.height - max_length then
      match line_find_vline_checked bmp (point_ctor col row) with
      | none => none
      | some temp =>
        if shape_geometry_is_invalid temp = true then
          longest_vline_col_checked_fuel bmp col fuel (row + 1) max max_length
        else if shape_geometry_is_invalid max = true ∨ vline_cmp max temp < 0 then
          longest_vline_col_checked_fuel bmp col fuel (temp.end_.y + 1) temp
            (vline_length temp)
        else
          longest_vline_col_checked_fuel bmp col fuel (temp.end_.y + 1) max max_length
    else some (max, max_length)

def longest_vline_cols_checked_fuel (bmp : Bitmap) :
    Nat → Nat → ShapeGeometry → Nat → Option (ShapeGeometry × Nat)
  | 0, _, max, max_length => some (max, max_length)
  | fuel + 1, col, max, max_length =>
    if col < bmp.dimensions.width then
      match longest_vline_col_checked_fuel bmp col bmp.dimensions.height 0 max max_length with
      | none => none
      | some acc => longest_vline_cols_checked_fuel bmp fuel (col + 1) acc.1 acc.2
    else some (max, max_length)

def line_find_longest_vline_checked (bmp : Bitmap) : Option ShapeGeometry :=
  match longest_vline_cols_checked_fuel bmp bmp.dimensions.width 0
      shape_geometry_invalid_ctor 0 with
  | none => none
  | some acc => some acc.1

def square_move_loop_checked (bmp : Bitmap) (top_left : Point) :
    Nat → Nat → Nat → Option Point
  | 0, x, y => some (point_ctor (x - 1) (y - 1))
  | fuel + 1, x, y =>
    if x ≥ bmp.dimensions.width then some (point_ctor (x - 1) (y - 1))
    else
      match bmp_at_checked bmp top_left.y x with
      | none => none
      | some bx =>
        if bx = false then some (point_ctor (x - 1) (y - 1))
        else if y ≥ bmp.dimensions.height then some (point_ctor (x - 1) (y - 1))
        else
          match bmp_at_checked bmp y top_left.x with
          | none => none
          | some bcol =>
            if bcol = false then some (point_ctor (x - 1) (y - 1))
            else square_move_loop_checked bmp top_left fuel (x + 1) (y + 1)

def square_move_along_orthogonals_checked (bmp : Bitmap) (top_left : Point) :
    Option Point :=
  square_move_loop_checked bmp top_left
    (bmp.dimensions.width - top_left.x) top_left.x top_left.y

def square_found_valid_square_checked (bmp : Bitmap) (top_left bottom_right : Point) :
    Option Bool :=
  match line_find_hline_checked bmp (point_ctor top_left.x bottom_right.y) with
  | none => none
  | some hline =>
    match line_find_vline_checked bmp (point_ctor bottom_right.x top_left.y) with
    | none => none
    | some vline =>
      some (decide (bottom_right.x ≤ hline.end_.x) && decide (bottom_right.y ≤ vline.end_.y))

def square_shrink_checked (bmp : Bitmap) (top_left : Point) :
    Nat → Nat → ShapeGeometry → Nat → Option (ShapeGeometry × Nat)
  | x, y, max, max_length =>
    if x < top_left.x then some (max, max_length)
    else
      match square_found_valid_square_checked bmp top_left (point_ctor x y) with
      | none => none
      | some v =>
        if v = true then
          some (square_set_max_square max max_length
            (shape_geometry_ctor top_left (point_ctor x y)))
        else
          match x with
          | 0 => some (max, max_length)
          | x' + 1 => square_shrink_checked bmp top_left x' (y - 1) max max_length

def square_anchor_step_checked (bmp : Bitmap) (top_left : Point)
    (max : ShapeGeometry) (max_length : Nat) : Option (ShapeGeometry × Nat) :=
  match square_move_along_orthogonals_checked bmp top_left with
  | none => none
  | some ebr =>
    if max_length > ebr.x - top_left.x + 1 then some (max, max_length)
    else
      match square_found_valid_square_checked bmp top_left ebr with
      | none => none
      | some v =>
        if v = true then
          some (square_set_max_square max max_length
            (shape_geometry_ctor top_left ebr))
        else square_shrink_checked bmp top_left ebr.x ebr.y max max_length

def square_scan_checked_fuel (bmp : Bitmap) :
    Nat → Nat → ShapeGeometry → Nat → Option ShapeGeometry
  | 0, _, max, _ => some max
  | fuel + 1, i, max, max_length =>
    if i < bmp.dimensions.width * bmp.dimensions.height then
      match bmp_at_checked bmp (i / bmp.dimensions.width) (i % bmp.dimensions.width) with
      | none => none
      | some b =>
        if b = false then square_scan_checked_fuel bmp fuel (i + 1) max max_length
        else if max_length * max_length ≥
            (bmp.dimensions.height - i / bmp.dimensions.width) * bmp.dimensions.width then
          some max
        else
          match square_anchor_step_checked bmp
              (point_ctor (i % bmp.dimensions.width) (i / bmp.dimensions.width))
              max max_length with
          | none => none
          | some acc => square_scan_checked_fuel bmp fuel (i + 1) acc.1 acc.2
    else some max

def square_find_largest_square_checked (bmp : Bitmap) : Option ShapeGeometry :=
  square_scan_checked_fuel bmp (bmp.dimensions.width * bmp.dimensions.height) 0
    shape_geometry_invalid_ctor 0

theorem hline_scan_checked_eq (bmp : Bitmap) (row : Nat)
    (hrow : row < bmp.dimensions.height) :
    ∀ fuel x, hline_scan_checked_fuel bmp row fuel x =
      some (hline_scan_fuel bmp row fuel x) := by
  intro fuel
  induction fuel with
  | zero => intro x; rfl
  | succ n ih =>
    intro x
    by_cases hx : x < bmp.dimensions.width
    · by_cases hb : bmp_at bmp row x = true
      · simp [hline_scan_checked_fuel, hline_scan_fuel, bmp_at_checked, hrow, hx, hb, ih]
      · simp [hline_scan_checked_fuel, hline_scan_fuel, bmp_at_checked, hrow, hx, hb]
    · simp [hline_scan_checked_fuel, hline_scan_fuel, bmp_at_checked, hx]

theorem vline_scan_checked_eq (bmp : Bitmap) (col : Nat)
    (hcol : col < bmp.dimensions.width) :
    ∀ fuel y, vline_scan_checked_fuel bmp col fuel y =
      some (vline_scan_fuel bmp col fuel y) := by
  intro fuel
  induction fuel with
  | zero => intro y; rfl
  | succ n ih =>
    intro y
    by_cases hy : y < bmp.dimensions.height
    · by_cases hb : bmp_at bmp y col = true
      · simp [vline_scan_checked_fuel, vline_scan_fuel, bmp_at_checked, hcol, hy, hb, ih]
      · simp [vline_scan_checked_fuel, vline_scan_fuel, bmp_at_checked, hcol, hy, hb]
    · simp [vline_scan_checked_fuel, vline_scan_fuel, bmp_at_checked, hy]

theorem line_find_hline_checked_eq (bmp : Bitmap) (p : Point)
    (hy : p.y < bmp.dimensions.height) (hx : p.x < bmp.dimensions.width) :
    line_find_hline_checked bmp p = some (line_find_hline bmp p) := by
  by_cases hb : bmp_at bmp p.y p.x = true
  · simp [line_find_hline_checked, line_find_hline, bmp_at_checked, hy, hx, hb,
      hline_scan_checked_eq bmp p.y hy, hline_scan]
  · simp [line_find_hline_checked, line_find_hline, bmp_at_checked, hy, hx, hb]

theorem line_find_vline_checked_eq (bmp : Bitmap) (p : Point)
    (hy : p.y < bmp.dimensions.height) (hx : p.x < bmp.dimensions.width) :
    line_find_vline_checked bmp p = some (line_find_vline bmp p) := by
  by_cases hb : bmp_at bmp p.y p.x = true
  · simp [line_find_vline_checked, line_find_vline, bmp_at_checked, hy, hx, hb,
      vline_scan_checked_eq bmp p.x hx, vline_scan]
  · simp [line_find_vline_checked, line_find_vline, bmp_at_checked, hy, hx, hb]

theorem longest_hline_row_checked_eq (bmp : Bitmap) (row : Nat)
    (hrow : row < bmp.dimensions.height) :
    ∀ fuel col max max_length,
      longest_hline_row_checked_fuel bmp row fuel col max max_length =
        some (longest_hline_row_fuel bmp row fuel col max max_length) := by
  intro fuel
  induction fuel with
  | zero => intro col max ml; rfl
  | succ n ih =>
    intro col max ml
    by_cases hcol : col < bmp.dimensions.width - ml
    · have hcw : col < bmp.dimensions.width := by omega
      rw [longest_hline_row_checked_fuel, longest_hline_row_fuel, if_pos hcol, if_pos hcol]
      rw [line_find_hline_checked_eq bmp (point_ctor col row) hrow hcw]
      by_cases hinv :
          shape_geometry_is_invalid (line_find_hline bmp (point_ctor col row)) = true
      · simp [hinv, ih]
      · by_cases hc : shape_geometry_is_invalid max = true ∨
            hline_cmp max (line_find_hline bmp (point_ctor col row)) < 0
        · simp [hinv, hc, ih]
        · simp [hinv, hc, ih]
    · rw [longest_hline_row_checked_fuel, longest_hline_row_fuel, if_neg hcol, if_neg hcol]

theorem longest_vline_col_checked_eq (bmp : Bitmap) (col : Nat)
    (hcol : col < bmp.dimensions.width) :
    ∀ fuel row max max_length,
      longest_vline_col_checked_fuel bmp col fuel row max max_length =
        some (longest_vline_col_fuel bmp col fuel row max max_length) := by
  intro fuel
  induction fuel with
  | zero => intro row max ml; rfl
  | succ n ih =>
    intro row max ml
    by_cases hrow : row < bmp.dimensions.height - ml
    · have hrh : row < bmp.dimensions.height := by omega
      rw [longest_vline_col_checked_fuel, longest_vline_col_fuel, if_pos hrow, if_pos hrow]
      rw [line_find_vline_checked_eq bmp (point_ctor col row) hrh hcol]
      by_cases hinv :
          shape_geometry_is_invalid (line_find_vline bmp (point_ctor col row)) = true
      · simp [hinv, ih]
      · by_cases hc : shape_geometry_is_invalid max = true ∨
            vline_cmp max (line_find_vline bmp (point_ctor col row)) < 0
        · simp [hinv, hc, ih]
        · simp [hinv, hc, ih]
    · rw [longest_vline_col_checked_fuel, longest_vline_col_fuel, if_neg hrow, if_neg hrow]

theorem longest_hline_rows_checked_eq (bmp : Bitmap) :
    ∀ fuel row max max_length,
      longest_hline_rows_checked_fuel bmp fuel row max max_length =
        some (longest_hline_rows_fuel bmp fuel row max max_length) := by
  intro fuel
  induction fuel with
  | zero => intro row max ml; rfl
  | succ n ih =>
    intro row max ml
    by_cases hrow : row < bmp.dimensions.height
    · rw [longest_hline_rows_checked_fuel, longest_hline_rows_fuel, if_pos hrow, if_pos hrow]
      rw [longest_hline_row_checked_eq bmp row hrow]
      simp [ih]
    · rw [longest_hline_rows_checked_fuel, longest_hline_rows_fuel, if_neg hrow, if_neg hrow]

theorem longest_vline_cols_checked_eq (bmp : Bitmap) :
    ∀ fuel col max max_length,
      longest_vline_cols_checked_fuel bmp fuel col max max_length =
        some (longest_vline_cols_fuel bmp fuel col max max_length) := by
  intro fuel
  induction fuel with
  | zero => intro col max ml; rfl
  | succ n ih =>
    intro col max ml
    by_cases hcol : col < bmp.dimensions.width
    · rw [longest_vline_cols_checked_fuel, longest_vline_cols_fuel, if_pos hcol, if_pos hcol]
      rw [longest_vline_col_checked_eq bmp col hcol]
      simp [ih]
    · rw [longest_vline_cols_checked_fuel, longest_vline_cols_fuel, if_neg hcol, if_neg hcol]

theorem line_find_longest_hline_checked_eq (bmp : Bitmap) :
    line_find_longest_hline_checked bmp = some (line_find_longest_hline bmp) := by
  rw [line_find_longest_hline_checked, line_find_longest_hline]
  rw [longest_hline_rows_checked_eq bmp]

theorem line_find_longest_vline_checked_eq (bmp : Bitmap) :
    line_find_longest_vline_checked bmp = some (line_find_longest_vline bmp) := by
  rw [line_find_longest_vline_checked, line_find_longest_vline]
  rw [longest_vline_cols_checked_eq bmp]

theorem square_move_loop_checked_eq (bmp : Bitmap) (tl : Point)
    (hty : tl.y < bmp.dimensions.height) (htx : tl.x < bmp.dimensions.width) :
    ∀ fuel x y, square_move_loop_checked bmp tl fuel x y =
      some (square_move_loop bmp tl fuel x y) := by
  intro fuel
  induction fuel with
  | zero => intro x y; rfl
  | succ n ih =>
    intro x y
    by_cases hx : x ≥ bmp.dimensions.width
    · simp [square_move_loop_checked, square_move_loop, hx]
    · have hx2 : x < bmp.dimensions.width := by omega
      by_cases hbx : bmp_at bmp tl.y x = false
      · simp [square_move_loop_checked, square_move_loop, hx, hx2, hbx, bmp_at_checked, hty]
      · by_cases hy : y ≥ bmp.dimensions.height
        · simp [square_move_loop_checked, square_move_loop, hx, hx2, hbx, hy,
            bmp_at_checked, hty]
        · have hy2 : y < bmp.dimensions.height := by omega
          by_cases hbc : bmp_at bmp y tl.x = false
          · simp [square_move_loop_checked, square_move_loop, hx, hx2, hbx, hy, hy2, hbc,
              bmp_at_checked, hty, htx]
          · simp [square_move_loop_checked, square_move_loop, hx, hx2, hbx, hy, hy2, hbc,
              bmp_at_checked, hty, htx, ih]

theorem square_move_along_orthogonals_checked_eq (bmp : Bitmap) (tl : Point)
    (hty : tl.y < bmp.dimensions.height) (htx : tl.x < bmp.dimensions.width) :
    square_move_along_orthogonals_checked bmp tl =
      some (square_move_along_orthogonals bmp tl) := by
  rw [square_move_along_orthogonals_checked, square_move_along_orthogonals,
    square_move_loop_checked_eq bmp tl hty htx]

theorem square_found_valid_square_checked_eq (bmp : Bitmap) (tl br : Point)
    (h1 : br.y < bmp.dimensions.height) (h2 : tl.x < bmp.dimensions.width)
    (h3 : tl.y < bmp.dimensions.height) (h4 : br.x < bmp.dimensions.width) :
    square_found_valid_square_checked bmp tl br =
      some (square_found_valid_square bmp tl br) := by
  rw [square_found_valid_square_checked,
    line_find_hline_checked_eq bmp (point_ctor tl.x br.y) h1 h2,
    line_find_vline_checked_eq bmp (point_ctor br.x tl.y) h3 h4]
  rfl

theorem square_shrink_checked_eq (bmp : Bitmap) (tl : Point)
    (htx : tl.x < bmp.dimensions.width) (hty : tl.y < bmp.dimensions.height) :
    ∀ x y max max_length, x < bmp.dimensions.width → y < bmp.dimensions.height →
      square_shrink_checked bmp tl x y max max_length =
        some (square_shrink bmp tl x y max max_length) := by
  intro x
  induction x with
  | zero =>
    intro y max ml hxw hyh
    by_cases hguard : 0 < tl.x
    · rw [square_shrink_checked, square_shrink, if_pos hguard, if_pos hguard]
    · rw [square_shrink_checked, square_shrink, if_neg hguard, if_neg hguard,
        square_found_valid_square_checked_eq bmp tl (point_ctor 0 y) hyh htx hty hxw]
      by_cases hv : square_found_valid_square bmp tl (point_ctor 0 y) = true
      · simp [hv]
      · simp [hv]
  | succ n ih =>
    intro y max ml hxw hyh
    by_cases hguard : n + 1 < tl.x
    · rw [square_shrink_checked, square_shrink, if_pos hguard, if_pos hguard]
    · rw [square_shrink_checked, square_shrink, if_neg hguard, if_neg hguard,
        square_found_valid_square_checked_eq bmp tl (point_ctor (n + 1) y) hyh htx hty hxw]
      by_cases hv : square_found_valid_square bmp tl (point_ctor (n + 1) y) = true
      · simp [hv]
      · simp [hv, ih (y - 1) max ml (by omega) (by omega)]

theorem square_anchor_step_checked_eq (bmp : Bitmap) (tl : Point)
    (max : ShapeGeometry) (max_length : Nat)
    (hfill : bmp_at bmp tl.y tl.x = true)
    (htx : tl.x < bmp.dimensions.width) (hty : tl.y < bmp.dimensions.height) :
    square_anchor_step_checked bmp tl max max_length =
      some (square_anchor_step bmp tl max max_length) := by
  obtain ⟨p1, p2, p3, p4, p5, p6, p7⟩ := square_move_spec bmp tl hfill htx hty
  rw [square_anchor_step_checked, square_anchor_step,
    square_move_along_orthogonals_checked_eq bmp tl hty htx]
  by_cases hskip : max_length > (square_move_along_orthogonals bmp tl).x - tl.x + 1
  · simp [hskip]
  · by_cases hv : square_found_valid_square bmp tl
        (square_move_along_orthogonals bmp tl) = true
    · simp [hskip, hv,
        square_found_valid_square_checked_eq bmp tl
          (square_move_along_orthogonals bmp tl) p5 htx hty p4]
    · simp [hskip, hv,
        square_found_valid_square_checked_eq bmp tl
          (square_move_along_orthogonals bmp tl) p5 htx hty p4,
        square_shrink_checked_eq bmp tl htx hty
          (square_move_along_orthogonals bmp tl).x
          (square_move_along_orthogonals bmp tl).y max max_length p4 p5]

theorem square_scan_checked_eq (bmp : Bitmap) :
    ∀ fuel i max max_length,
      square_scan_checked_fuel bmp fuel i max max_length =
        some (square_scan_fuel bmp fuel i max max_length) := by
  intro fuel
  induction fuel with
  | zero => intro i max ml; rfl
  | succ n ih =>
    intro i max ml
    by_cases hi : i < bmp.dimensions.width * bmp.dimensions.height
    · have hw : 0 < bmp.dimensions.width := by
        rcases Nat.eq_zero_or_pos bmp.dimensions.width with h0 | h
        · rw [h0] at hi; simp at hi
        · exact h
      have hcol : i % bmp.dimensions.width < bmp.dimensions.width := Nat.mod_lt _ hw
      have hrow : i / bmp.dimensions.width < bmp.dimensions.height :=
        Nat.div_lt_of_lt_mul hi
      have hid : i / bmp.dimensions.width * bmp.dimensions.width +
          i % bmp.dimensions.width = i := by
        rw [Nat.mul_comm, Nat.div_add_mod]
      have hat : bmp_at_checked bmp (i / bmp.dimensions.width) (i % bmp.dimensions.width) =
          some (bmp.data.getD i false) := by
        rw [bmp_at_checked, if_pos ⟨hrow, hcol⟩]
        exact congrArg some (by rw [bmp_at, hid])
      rw [square_scan_checked_fuel, square_scan_fuel, if_pos hi, if_pos hi, hat]
      cases hb : bmp.data.getD i false with
      | false =>
        simp [ih]
      | true =>
        by_cases harea : ml * ml ≥
            (bmp.dimensions.height - i / bmp.dimensions.width) * bmp.dimensions.width
        · simp [harea]
        · have hfill : bmp_at bmp (i / bmp.dimensions.width) (i % bmp.dimensions.width) = true := by
            rw [bmp_at]
            show bmp.data.getD
              (i / bmp.dimensions.width * bmp.dimensions.width + i % bmp.dimensions.width)
              false = true
            rw [hid]
            exact hb
          simp [harea, ih,
            square_anchor_step_checked_eq bmp
              (point_ctor (i % bmp.dimensions.width) (i / bmp.dimensions.width))
              max ml hfill hcol hrow]
    · rw [square_scan_checked_fuel, square_scan_fuel, if_neg hi, if_neg hi]

theorem square_find_largest_square_checked_eq (bmp : Bitmap) :
    square_find_largest_square_checked bmp = some (square_find_largest_square bmp) := by
  rw [square_find_largest_square_checked, square_find_largest_square,
    square_scan_checked_eq bmp]

/-- Claim C9: on every bitmap, each of the three scanners only ever reads
pixels through `bmp_at` at positions with `row < height` and `col < width`:
running the scanners over the bounds-checked (`Option`-returning) embedding
of `bmp_at` never takes the out-of-range branch, and reproduces the unchecked
result exactly. -/
theorem spec_c9_scanners_in_bounds (bmp : Bitmap) :
    line_find_longest_hline_checked bmp = some (line_find_longest_hline bmp) ∧
    line_find_longest_vline_checked bmp = some (line_find_longest_vline bmp) ∧
    square_find_largest_square_checked bmp = some (square_find_largest_square bmp) :=
  ⟨line_find_longest_hline_checked_eq bmp, line_find_longest_vline_checked_eq bmp,
    square_find_largest_square_checked_eq bmp⟩

/-- Witness for C10: the 2×2 bitmap `11 / 10`, anchored at `(0,0)`, whose
probe reaches `(1,1)` but whose 2×2 square fails verification, so the
fallback shrinks down to the 1×1 at the anchor. -/
theorem spec_c10_shrink_terminates_witness :
    ∃ x' y', (point_ctor 0 0).x ≤ x' ∧ x' ≤ 1 ∧ (point_ctor 0 0).y ≤ y' ∧
      y' - (point_ctor 0 0).y = x' - (point_ctor 0 0).x ∧
      square_found_valid_square ⟨⟨2, 2⟩, [true, true, true, false]⟩
        (point_ctor 0 0) (point_ctor x' y') = true ∧
      square_shrink ⟨⟨2, 2⟩, [true, true, true, false]⟩ (point_ctor 0 0) 1 1
          shape_geometry_invalid_ctor 0 =
        square_set_max_square shape_geometry_invalid_ctor 0
          (shape_geometry_ctor (point_ctor 0 0) (point_ctor x' y')) :=
  spec_c10_shrink_terminates ⟨⟨2, 2⟩, [true, true, true, false]⟩ (point_ctor 0 0) 1 1
    shape_geometry_invalid_ctor 0 (by decide) (by decide) (by decide) (by decide)

/- =========================================
   Scenario 1 (claim C3)
   ========================================= -/

/-- C3 counterexample: on the file `"2 3\n111\n010\n"` the vertical scanner
does NOT print `0 0 1 0` (column 0 holds only a length-1 run; the length-2
run is in column 1). -/
theorem spec_c3_scenario1_counterexample :
    bmp_loader_load "2 3\n111\n010\n".toList =
      .ok ⟨⟨3, 2⟩, [true, true, true, false, true, false]⟩ ∧
    shape_geometry_print
        (line_find_longest_vline ⟨⟨3, 2⟩, [true, true, true, false, true, false]⟩) ≠
      (0, 0, 1, 0) := by
  exact ⟨by decide, by decide⟩

/-- C3 amended: on the file `"2 3\n111\n010\n"`, `longest_horizontal` prints
`0 0 0 2` (as the claim says) and `longest_vertical` prints `0 1 1 1` (the
length-2 run of column 1, not the claim's `0 0 1 0`). -/
theorem spec_c3_scenario1_amended :
    bmp_loader_load "2 3\n111\n010\n".toList =
      .ok ⟨⟨3, 2⟩, [true, true, true, false, true, false]⟩ ∧
    shape_geometry_print
        (line_find_longest_hline ⟨⟨3, 2⟩, [true, true, true, false, true, false]⟩) =
      (0, 0, 0, 2) ∧
    shape_geometry_print
        (line_find_longest_vline ⟨⟨3, 2⟩, [true, true, true, false, true, false]⟩) =
      (0, 1, 1, 1) := by
  exact ⟨by decide, by decide, by decide⟩

/- =========================================
   The comparator's uint32 wraparound (claims C2, C4, C5)
   ========================================= -/

/-- C2: the tie-break of `shape_geometry_cmp` inverts once the row gap
reaches `2^31`.  Two length-1 vertical runs, one at row `0` and one at row
`2^31 + 1`: the comparator ranks the row-0 run *below* the later one
(`rhs.start.y - lhs.start.y` wraps to a negative `int`), so
`line_find_longest_vline`'s update test `vline_cmp max temp < 0` would
replace the top run by the bottom one, against the smaller-row-wins rule. -/
theorem spec_c2_cmp_tiebreak_wraps :
    vline_length (shape_geometry_ctor (point_ctor 0 0) (point_ctor 0 0)) =
      vline_length
        (shape_geometry_ctor (point_ctor 0 2147483649) (point_ctor 0 2147483649)) ∧
    (shape_geometry_ctor (point_ctor 0 0) (point_ctor 0 0)).start.y <
      (shape_geometry_ctor (point_ctor 0 2147483649) (point_ctor 0 2147483649)).start.y ∧
    vline_cmp (shape_geometry_ctor (point_ctor 0 0) (point_ctor 0 0))
      (shape_geometry_ctor (point_ctor 0 2147483649) (point_ctor 0 2147483649)) < 0 := by
  exact ⟨by decide, by decide, by decide⟩

/-- C5: the length comparison of `shape_geometry_cmp` inverts once the length
gap reaches `2^31`.  A length-1 run at column 0 against a length-`2^31+2` run
at column 2 of the same row: `length_delta` wraps below `2^31`, the
comparator returns a positive `int`, and `line_find_longest_hline` keeps the
short run as its maximum. -/
theorem spec_c5_cmp_length_wraps :
    hline_length (shape_geometry_ctor (point_ctor 0 0) (point_ctor 0 0)) <
      hline_length (shape_geometry_ctor (point_ctor 2 0) (point_ctor 2147483651 0)) ∧
    hline_cmp (shape_geometry_ctor (point_ctor 0 0) (point_ctor 0 0))
      (shape_geometry_ctor (point_ctor 2 0) (point_ctor 2147483651 0)) > 0 := by
  exact ⟨by decide, by decide⟩

/-- C4: the same tie-break wraparound as C2, for squares.  Two 1×1 squares
with a row gap of `2^31 + 1`: `square_cmp` ranks the earlier anchor below the
later one, so the exhaustive scan (which reaches the later anchor) replaces
the row-0 square, while the optimized scan's remaining-area early return
(`1*1 ≥ (height - row) * width` at the last row) stops before comparing —
the two scans disagree. -/
theorem spec_c4_cmp_prune_divergence :
    square_side_length (shape_geometry_ctor (point_ctor 0 0) (point_ctor 0 0)) =
      square_side_length
        (shape_geometry_ctor (point_ctor 0 2147483649) (point_ctor 0 2147483649)) ∧
    (shape_geometry_ctor (point_ctor 0 0) (point_ctor 0 0)).start.y <
      (shape_geometry_ctor (point_ctor 0 2147483649) (point_ctor 0 2147483649)).start.y ∧
    square_cmp (shape_geometry_ctor (point_ctor 0 0) (point_ctor 0 0))
      (shape_geometry_ctor (point_ctor 0 2147483649) (point_ctor 0 2147483649)) < 0 := by
  exact ⟨by decide, by decide, by decide⟩

/- =========================================
   Loader lemmas (claims C6, C7, C8)
   ========================================= -/

theorem ws_not_pix (c : Char) (h : bmp_valid_whitespace c = true) :
    bmp_valid_pix c = false := by
  rcases (by simpa [bmp_valid_whitespace] using h :
      ((((c = ' ' ∨ c = '\t') ∨ c = '\n') ∨ c = '\x0b') ∨ c = '\x0c') ∨ c = '\r') with
    ((((h | h) | h) | h) | h) | h <;> subst h <;> rfl

theorem pix_not_ws (c : Char) (h : bmp_valid_pix c = true) :
    bmp_valid_whitespace c = false := by
  rcases (by simpa [bmp_valid_pix] using h : c = '1' ∨ c = '0') with h | h <;>
    subst h <;> rfl

theorem pix_chars_cons_ws (c : Char) (cs : List Char)
    (h : bmp_valid_whitespace c = true) : pix_chars (c :: cs) = pix_chars cs := by
  simp [pix_chars, ws_not_pix c h]

theorem pix_chars_cons_pix (c : Char) (cs : List Char)
    (h : bmp_valid_pix c = true) : pix_chars (c :: cs) = (c == '1') :: pix_chars cs := by
  simp [pix_chars, h]

theorem bmp_loader_ignore_whitespace_ok (cap : Nat) :
    ∀ cs acc, (∀ c ∈ cs, bmp_valid_whitespace c = true ∨ bmp_valid_pix c = true) →
      acc.length + (pix_chars cs).length ≤ cap →
      bmp_loader_ignore_whitespace cap cs acc = .ok (acc ++ pix_chars cs) := by
  intro cs
  induction cs with
  | nil => intro acc h1 h2; simp [bmp_loader_ignore_whitespace, pix_chars]
  | cons c cs ih =>
    intro acc h1 h2
    rcases h1 c (by simp) with hws | hpx
    · rw [bmp_loader_ignore_whitespace, if_pos hws, pix_chars_cons_ws c cs hws]
      rw [pix_chars_cons_ws c cs hws] at h2
      exact ih acc (fun d hd => h1 d (by simp [hd])) h2
    · rw [pix_chars_cons_pix c cs hpx] at h2 ⊢
      simp only [List.length_cons] at h2
      rw [bmp_loader_ignore_whitespace, if_neg (by simp [pix_not_ws c hpx]), if_pos hpx]
      rw [if_neg (by omega)]
      rw [ih (acc ++ [c == '1']) (fun d hd => h1 d (by simp [hd])) (by simp; omega)]
      simp

theorem bmp_loader_ignore_whitespace_overflow (cap : Nat) :
    ∀ cs acc, (∀ c ∈ cs, bmp_valid_whitespace c = true ∨ bmp_valid_pix c = true) →
      acc.length ≤ cap → cap < acc.length + (pix_chars cs).length →
      bmp_loader_ignore_whitespace cap cs acc = .error .rawSizeMismatch := by
  intro cs
  induction cs with
  | nil =>
    intro acc h1 h2 h3
    rw [pix_chars] at h3
    simp at h3
    omega
  | cons c cs ih =>
    intro acc h1 h2 h3
    rcases h1 c (by simp) with hws | hpx
    · rw [bmp_loader_ignore_whitespace, if_pos hws]
      rw [pix_chars_cons_ws c cs hws] at h3
      exact ih acc (fun d hd => h1 d (by simp [hd])) h2 h3
    · rw [pix_chars_cons_pix c cs hpx] at h3
      simp only [List.length_cons] at h3
      rw [bmp_loader_ignore_whitespace, if_neg (by simp [pix_not_ws c hpx]), if_pos hpx]
      by_cases hcap : cap ≤ acc.length
      · rw [if_pos hcap]
      · rw [if_neg hcap]
        exact ih (acc ++ [c == '1']) (fun d hd => h1 d (by simp [hd]))
          (by simp; omega) (by simp; omega)

theorem bmp_loader_load_size_eq_err (input : List Char) (e : LoadError)
    (h : bmp_loader_load_dimension input = .error e) :
    bmp_loader_load_size input = .error e := by
  rw [bmp_loader_load_size, h]

theorem bmp_loader_load_size_eq_ok (input : List Char) (hv : Nat) (r1 : List Char)
    (h1 : bmp_loader_load_dimension input = .ok (hv, r1)) :
    bmp_loader_load_size input =
      match bmp_loader_load_dimension r1 with
      | .error e => .error e
      | .ok (wv, r2) => .ok (⟨wv, hv⟩, r2) := by
  rw [bmp_loader_load_size, h1]

theorem bmp_loader_load_eq_err (input : List Char) (e : LoadError)
    (h : bmp_loader_load_size input = .error e) :
    bmp_loader_load input = .error e := by
  rw [bmp_loader_load, h]

theorem bmp_loader_load_eq_of (input : List Char) (sz : BitmapSize) (rest : List Char)
    (hsz : bmp_loader_load_size input = .ok (sz, rest)) :
    bmp_loader_load input =
      match bmp_loader_ignore_whitespace (bmp_size_raw sz) rest [] with
      | .error e => .error e
      | .ok pixels =>
        if pixels.length ≠ bmp_size_raw sz then
          .error (.pixelCountMismatch pixels.length (bmp_size_raw sz))
        else .ok ⟨sz, pixels⟩ := by
  rw [bmp_loader_load, hsz]

theorem bmp_loader_load_dimension_eq_nil (input : List Char)
    (hskip : skip_scanf_whitespace input = []) :
    bmp_loader_load_dimension input = .error .invalidDimensionToken := by
  rw [bmp_loader_load_dimension, hskip]

theorem bmp_loader_load_dimension_eq_cons (input : List Char) (c : Char) (cs : List Char)
    (hskip : skip_scanf_whitespace input = c :: cs) :
    bmp_loader_load_dimension input =
      if c.isDigit = true then
        if (read_digits (c :: cs) 0).1 = 0 then .error .invalidDimensionZero
        else .ok (read_digits (c :: cs) 0)
      else if c = '+' then scanf_u32_signed_run cs false
      else if c = '-' then scanf_u32_signed_run cs true
      else .error .invalidDimensionToken := by
  rw [bmp_loader_load_dimension, hskip]

theorem scanf_u32_signed_run_nil (neg : Bool) :
    scanf_u32_signed_run [] neg = .error .invalidDimensionToken := rfl

theorem scanf_u32_signed_run_digit (d : Char) (ds : List Char) (neg : Bool)
    (hd : d.isDigit = true) :
    scanf_u32_signed_run (d :: ds) neg =
      if scanf_u32_value neg (read_digits (d :: ds) 0).1 = 0 then
        .error .invalidDimensionZero
      else .ok (scanf_u32_value neg (read_digits (d :: ds) 0).1, (read_digits (d :: ds) 0).2) := by
  rw [scanf_u32_signed_run, if_pos hd]

theorem scanf_u32_signed_run_nondigit (d : Char) (ds : List Char) (neg : Bool)
    (hd : d.isDigit = false) :
    scanf_u32_signed_run (d :: ds) neg = .error .invalidDimensionToken := by
  rw [scanf_u32_signed_run, if_neg (by simp [hd])]

theorem bmp_loader_load_dimension_eq_digit (input : List Char) (c : Char) (cs : List Char)
    (hskip : skip_scanf_whitespace input = c :: cs) (hd : c.isDigit = true) :
    bmp_loader_load_dimension input =
      if (read_digits (c :: cs) 0).1 = 0 then .error .invalidDimensionZero
      else .ok (read_digits (c :: cs) 0) := by
  rw [bmp_loader_load_dimension_eq_cons input c cs hskip, if_pos hd]

theorem bmp_loader_load_dimension_eq_nonnum (input : List Char) (c : Char) (cs : List Char)
    (hskip : skip_scanf_whitespace input = c :: cs) (hd : c.isDigit = false)
    (hp : c ≠ '+') (hm : c ≠ '-') :
    bmp_loader_load_dimension input = .error .invalidDimensionToken := by
  rw [bmp_loader_load_dimension_eq_cons input c cs hskip,
    if_neg (by simp [hd]), if_neg hp, if_neg hm]

theorem bmp_loader_load_dimension_eq_plus (input : List Char) (cs : List Char)
    (hskip : skip_scanf_whitespace input = '+' :: cs) :
    bmp_loader_load_dimension input = scanf_u32_signed_run cs false := by
  rw [bmp_loader_load_dimension_eq_cons input '+' cs hskip,
    if_neg (by decide), if_pos rfl]

theorem bmp_loader_load_dimension_eq_minus (input : List Char) (cs : List Char)
    (hskip : skip_scanf_whitespace input = '-' :: cs) :
    bmp_loader_load_dimension input = scanf_u32_signed_run cs true := by
  rw [bmp_loader_load_dimension_eq_cons input '-' cs hskip,
    if_neg (by decide), if_neg (by decide), if_pos rfl]

/-- C6 counterexample: the two pixel-count failure modes do not share one
error kind, and the past-the-end mode reports no counts: `"2 2\n111\n"` (too
few) fails with `pixelCountMismatch 3 4` (`ERR_INVALID_DIMENSION`), while
`"2 2\n11111\n"` (write past the declared count) fails with the payload-free
`rawSizeMismatch`, whose code is `ERR_INVALID_BITMAP_FILE` — the same kind as
an unexpected character, not a dimension-mismatch kind. -/
theorem spec_c6_mismatch_kind_counterexample :
    bmp_loader_load "2 2\n111\n".toList = .error (.pixelCountMismatch 3 4) ∧
    bmp_loader_load "2 2\n11111\n".toList = .error .rawSizeMismatch ∧
    LoadError.code .rawSizeMismatch ≠ LoadError.code (.pixelCountMismatch 3 4) := by
  exact ⟨by decide, by decide, by decide⟩

/-- C6 amended: for a file whose dimension header parses and whose remaining
characters are all whitespace or pixels, too few pixels fail with
`pixelCountMismatch found expected` (code `ERR_INVALID_DIMENSION`, both
counts reported), while an attempt to write past the declared count fails
with `rawSizeMismatch` (code `ERR_INVALID_BITMAP_FILE`, no counts). -/
theorem spec_c6_pixel_count_amended (input : List Char) (sz : BitmapSize)
    (rest : List Char)
    (hsz : bmp_loader_load_size input = .ok (sz, rest))
    (hvalid : ∀ c ∈ rest, bmp_valid_whitespace c = true ∨ bmp_valid_pix c = true) :
    ((pix_chars rest).length < bmp_size_raw sz →
      bmp_loader_load input =
        .error (.pixelCountMismatch (pix_chars rest).length (bmp_size_raw sz)) ∧
      LoadError.code (.pixelCountMismatch (pix_chars rest).length (bmp_size_raw sz)) =
        ERR_INVALID_DIMENSION) ∧
    (bmp_size_raw sz < (pix_chars rest).length →
      bmp_loader_load input = .error .rawSizeMismatch ∧
      LoadError.code .rawSizeMismatch = ERR_INVALID_BITMAP_FILE) := by
  constructor
  · intro hlt
    refine ⟨?_, rfl⟩
    rw [bmp_loader_load_eq_of input sz rest hsz,
      bmp_loader_ignore_whitespace_ok (bmp_size_raw sz) rest [] hvalid
        (by simpa using Nat.le_of_lt hlt)]
    simp [Nat.ne_of_lt hlt]
  · intro hgt
    refine ⟨?_, rfl⟩
    rw [bmp_loader_load_eq_of input sz rest hsz,
      bmp_loader_ignore_whitespace_overflow (bmp_size_raw sz) rest [] hvalid
        (by simp) (by simpa using hgt)]

/-- Witness for the amended C6 at the two concrete inputs. -/
theorem spec_c6_pixel_count_amended_witness :
    bmp_loader_load "2 2\n111\n".toList = .error (.pixelCountMismatch 3 4) ∧
    bmp_loader_load "2 2\n11111\n".toList = .error .rawSizeMismatch := by
  constructor
  · exact ((spec_c6_pixel_count_amended "2 2\n111\n".toList ⟨2, 2⟩ "\n111\n".toList
      (by decide) (by decide)).1 (by decide)).1
  · exact ((spec_c6_pixel_count_amended "2 2\n11111\n".toList ⟨2, 2⟩ "\n11111\n".toList
      (by decide) (by decide)).2 (by decide)).1

theorem digit_char_isDigit (d : Nat) (h : d < 10) : (digit_char d).isDigit = true := by
  interval_cases d <;> rfl

theorem digit_char_val (d : Nat) (h : d < 10) : (digit_char d).toNat - 48 = d := by
  interval_cases d <;> rfl

theorem ws_not_digit (c : Char) (h : bmp_valid_whitespace c = true) :
    c.isDigit = false := by
  rcases (by simpa [bmp_valid_whitespace] using h :
      ((((c = ' ' ∨ c = '\t') ∨ c = '\n') ∨ c = '\x0b') ∨ c = '\x0c') ∨ c = '\r') with
    ((((h | h) | h) | h) | h) | h <;> subst h <;> rfl

theorem digit_not_ws (c : Char) (h : c.isDigit = true) :
    bmp_valid_whitespace c = false := by
  cases hws : bmp_valid_whitespace c with
  | false => rfl
  | true => rw [ws_not_digit c hws] at h; exact absurd h (by simp)

theorem nat_digits_fuel_ne_nil :
    ∀ fuel n, n < fuel → nat_digits_fuel fuel n ≠ [] := by
  intro fuel
  induction fuel with
  | zero => intro n h; omega
  | succ m ih =>
    intro n h
    rw [nat_digits_fuel]
    by_cases h10 : n < 10
    · rw [if_pos h10]; simp
    · rw [if_neg h10]; simp

theorem nat_digits_fuel_all_digit :
    ∀ fuel n, n < fuel → ∀ c ∈ nat_digits_fuel fuel n, c.isDigit = true := by
  intro fuel
  induction fuel with
  | zero => intro n h; omega
  | succ m ih =>
    intro n h c hc
    rw [nat_digits_fuel] at hc
    by_cases h10 : n < 10
    · rw [if_pos h10] at hc
      simp at hc
      rw [hc]
      exact digit_char_isDigit n h10
    · rw [if_neg h10] at hc
      have hdiv : n / 10 < n := Nat.div_lt_self (by omega) (by omega)
      rcases List.mem_append.mp hc with hm | hm
      · exact ih (n / 10) (by omega) c hm
      · simp at hm
        rw [hm]
        exact digit_char_isDigit (n % 10) (Nat.mod_lt _ (by omega))

theorem nat_digits_ne_nil (n : Nat) : nat_digits n ≠ [] :=
  nat_digits_fuel_ne_nil (n + 1) n (Nat.lt_succ_self n)

theorem nat_digits_all_digit (n : Nat) : ∀ c ∈ nat_digits n, c.isDigit = true :=
  nat_digits_fuel_all_digit (n + 1) n (Nat.lt_succ_self n)

theorem read_digits_append (ds : List Char) :
    ∀ rest acc, (∀ c ∈ ds, c.isDigit = true) →
      read_digits (ds ++ rest) acc =
        read_digits rest (ds.foldl (fun a c => a * 10 + (c.toNat - 48)) acc) := by
  induction ds with
  | nil => intro rest acc h; rfl
  | cons c ds ih =>
    intro rest acc h
    have hc : c.isDigit = true := h c (by simp)
    rw [List.cons_append, read_digits, if_pos hc, List.foldl_cons]
    exact ih rest (acc * 10 + (c.toNat - 48)) (fun d hd => h d (by simp [hd]))

theorem nat_digits_fuel_foldl :
    ∀ fuel n acc, n < fuel →
      (nat_digits_fuel fuel n).foldl (fun a c => a * 10 + (c.toNat - 48)) acc =
        acc * 10 ^ (nat_digits_fuel fuel n).length + n := by
  intro fuel
  induction fuel with
  | zero => intro n acc h; omega
  | succ m ih =>
    intro n acc h
    rw [nat_digits_fuel]
    by_cases h10 : n < 10
    · rw [if_pos h10]
      simp [digit_char_val n h10]
    · rw [if_neg h10]
      have hdiv : n / 10 < n := Nat.div_lt_self (by omega) (by omega)
      rw [List.foldl_append, ih (n / 10) acc (by omega)]
      simp only [List.foldl_cons, List.foldl_nil, List.length_append, List.length_cons,
        List.length_nil]
      rw [digit_char_val (n % 10) (Nat.mod_lt _ (by omega))]
      have hpow : 10 ^ ((nat_digits_fuel m (n / 10)).length + (0 + 1)) =
          10 ^ (nat_digits_fuel m (n / 10)).length * 10 := by
        rw [Nat.zero_add, Nat.pow_succ]
      rw [hpow]
      have hdm : n / 10 * 10 + n % 10 = n := by
        rw [Nat.mul_comm, Nat.div_add_mod]
      ring_nf
      omega

theorem skip_scanf_whitespace_cons_no_ws (c : Char) (cs : List Char)
    (h : bmp_valid_whitespace c = false) :
    skip_scanf_whitespace (c :: cs) = c :: cs := by
  rw [skip_scanf_whitespace, if_neg (by simp [h])]

theorem skip_scanf_whitespace_cons_ws (c : Char) (cs : List Char)
    (h : bmp_valid_whitespace c = true) :
    skip_scanf_whitespace (c :: cs) = skip_scanf_whitespace cs := by
  rw [skip_scanf_whitespace, if_pos h]

theorem skip_scanf_whitespace_nat_digits (n : Nat) (rest : List Char) :
    skip_scanf_whitespace (nat_digits n ++ rest) = nat_digits n ++ rest := by
  rcases hnd : nat_digits n with _ | ⟨d, ds⟩
  · exact absurd hnd (nat_digits_ne_nil n)
  · have hd : d.isDigit = true := by
      refine nat_digits_all_digit n d ?_
      rw [hnd]; simp
    rw [List.cons_append]
    exact skip_scanf_whitespace_cons_no_ws d (ds ++ rest) (digit_not_ws d hd)

theorem read_digits_cons_nondigit (c : Char) (cs : List Char) (acc : Nat)
    (h : c.isDigit = false) : read_digits (c :: cs) acc = (acc, c :: cs) := by
  rw [read_digits, if_neg (by simp [h])]

theorem bmp_loader_load_dimension_digits (input : List Char) (n : Nat)
    (c : Char) (rest : List Char)
    (hskip : skip_scanf_whitespace input = nat_digits n ++ c :: rest)
    (hn : 0 < n) (hc : c.isDigit = false) :
    bmp_loader_load_dimension input = .ok (n, c :: rest) := by
  rcases hnd : nat_digits n with _ | ⟨d, ds⟩
  · exact absurd hnd (nat_digits_ne_nil n)
  · have hall : ∀ x ∈ nat_digits n, x.isDigit = true := nat_digits_all_digit n
    have hd : d.isDigit = true := by
      refine hall d ?_
      rw [hnd]; simp
    rw [hnd, List.cons_append] at hskip
    have hread : read_digits (d :: (ds ++ c :: rest)) 0 = (n, c :: rest) := by
      have hsplit : d :: (ds ++ c :: rest) = (d :: ds) ++ c :: rest := by simp
      rw [hsplit, read_digits_append (d :: ds) (c :: rest) 0 (by rw [← hnd]; exact hall)]
      rw [read_digits_cons_nondigit c rest _ hc]
      have hfold : (d :: ds).foldl (fun a x => a * 10 + (x.toNat - 48)) 0 = n := by
        rw [← hnd]
        rw [nat_digits]
        rw [nat_digits_fuel_foldl (n + 1) n 0 (Nat.lt_succ_self n)]
        simp
      rw [hfold]
    rw [bmp_loader_load_dimension_eq_digit input d (ds ++ c :: rest) hskip hd, hread]
    rw [if_neg (by simp; omega)]

theorem pixel_char_pix (b : Bool) : bmp_valid_pix (pixel_char b) = true := by
  cases b <;> rfl

theorem pixel_char_eq_one (b : Bool) : (pixel_char b == '1') = b := by
  cases b <;> rfl

theorem pix_chars_map_pixel_char (l : List Bool) :
    pix_chars (l.map pixel_char) = l := by
  induction l with
  | nil => rfl
  | cons b l ih =>
    rw [List.map_cons, pix_chars_cons_pix (pixel_char b) _ (pixel_char_pix b),
      pixel_char_eq_one, ih]

theorem bmp_loader_load_dimension_ok_pos (input : List Char) (v : Nat) (r : List Char)
    (h : bmp_loader_load_dimension input = .ok (v, r)) : 0 < v := by
  rcases hskip : skip_scanf_whitespace input with _ | ⟨c, cs⟩
  · rw [bmp_loader_load_dimension_eq_nil input hskip] at h
    exact absurd h (by simp)
  · by_cases hd : c.isDigit
    · rw [bmp_loader_load_dimension_eq_digit input c cs hskip hd] at h
      by_cases hz : (read_digits (c :: cs) 0).1 = 0
      · rw [if_pos hz] at h
        exact absurd h (by simp)
      · rw [if_neg hz] at h
        simp at h
        rw [h] at hz
        omega
    · have hrun : ∀ neg, scanf_u32_signed_run cs neg = .ok (v, r) → 0 < v := by
        intro neg hrr
        rcases cs with _ | ⟨d, ds⟩
        · exact absurd (by rw [scanf_u32_signed_run_nil neg] at hrr; exact hrr) (by simp)
        · by_cases hdd : d.isDigit
          · rw [scanf_u32_signed_run_digit d ds neg hdd] at hrr
            by_cases hz : scanf_u32_value neg (read_digits (d :: ds) 0).1 = 0
            · rw [if_pos hz] at hrr
              exact absurd hrr (by simp)
            · rw [if_neg hz] at hrr
              simp at hrr
              rw [hrr.1] at hz
              omega
          · rw [scanf_u32_signed_run_nondigit d ds neg (by simpa using hdd)] at hrr
            exact absurd hrr (by simp)
      by_cases hp : c = '+'
      · subst hp
        rw [bmp_loader_load_dimension_eq_plus input cs hskip] at h
        exact hrun false h
      · by_cases hm : c = '-'
        · subst hm
          rw [bmp_loader_load_dimension_eq_minus input cs hskip] at h
          exact hrun true h
        · rw [bmp_loader_load_dimension_eq_nonnum input c cs hskip
            (by simpa using hd) hp hm] at h
          exact absurd h (by simp)

theorem bmp_loader_load_ok_shape (input : List Char) (g : Bitmap)
    (h : bmp_loader_load input = .ok g) :
    g.data.length = bmp_size_raw g.dimensions ∧
      0 < g.dimensions.width ∧ 0 < g.dimensions.height := by
  rcases h1 : bmp_loader_load_dimension input with e | ⟨hv, r1⟩
  · rw [bmp_loader_load_eq_err input e (bmp_loader_load_size_eq_err input e h1)] at h
    exact absurd h (by simp)
  · rcases h2 : bmp_loader_load_dimension r1 with e | ⟨wv, r2⟩
    · have hsz : bmp_loader_load_size input = .error e := by
        rw [bmp_loader_load_size_eq_ok input hv r1 h1, h2]
      rw [bmp_loader_load_eq_err input e hsz] at h
      exact absurd h (by simp)
    · have hsz : bmp_loader_load_size input = .ok (⟨wv, hv⟩, r2) := by
        rw [bmp_loader_load_size_eq_ok input hv r1 h1, h2]
      rw [bmp_loader_load_eq_of input ⟨wv, hv⟩ r2 hsz] at h
      rcases hiw : bmp_loader_ignore_whitespace (bmp_size_raw ⟨wv, hv⟩) r2 [] with e | pixels
      · rw [hiw] at h
        exact absurd h (by simp)
      · rw [hiw] at h
        by_cases hlen : pixels.length ≠ bmp_size_raw ⟨wv, hv⟩
        · simp only [if_pos hlen] at h
          exact absurd h (by simp)
        · simp only [if_neg hlen] at h
          have hg2 : (⟨⟨wv, hv⟩, pixels⟩ : Bitmap) = g := by simpa using h
          refine ⟨?_, ?_, ?_⟩
          · rw [← hg2]
            simpa using hlen
          · rw [← hg2]
            exact bmp_loader_load_dimension_ok_pos r1 wv r2 h2
          · rw [← hg2]
            exact bmp_loader_load_dimension_ok_pos input hv r1 h1

/-- Claim C8 (round trip): serializing a successfully loaded grid —
dimensions (height then width) followed by the pixel buffer in row-major
order as `'0'`/`'1'` characters — and re-loading it through the same loader
succeeds and returns the identical grid. -/
theorem spec_c8_roundtrip (input : List Char) (g : Bitmap)
    (h : bmp_loader_load input = .ok g) :
    bmp_loader_load (bmp_serialize g) = .ok g := by
  obtain ⟨hlen, hwpos, hhpos⟩ := bmp_loader_load_ok_shape input g h
  have h1 : bmp_loader_load_dimension (bmp_serialize g) =
      .ok (g.dimensions.height,
        ' ' :: (nat_digits g.dimensions.width ++ '\n' :: g.data.map pixel_char)) := by
    refine bmp_loader_load_dimension_digits (bmp_serialize g) g.dimensions.height ' ' _
      ?_ hhpos rfl
    rw [bmp_serialize]
    exact skip_scanf_whitespace_nat_digits g.dimensions.height _
  have h2 : bmp_loader_load_dimension
      (' ' :: (nat_digits g.dimensions.width ++ '\n' :: g.data.map pixel_char)) =
      .ok (g.dimensions.width, '\n' :: g.data.map pixel_char) := by
    refine bmp_loader_load_dimension_digits _ g.dimensions.width '\n' _ ?_ hwpos rfl
    rw [skip_scanf_whitespace_cons_ws ' ' _ rfl]
    exact skip_scanf_whitespace_nat_digits g.dimensions.width _
  have hsz : bmp_loader_load_size (bmp_serialize g) =
      .ok (g.dimensions, '\n' :: g.data.map pixel_char) := by
    rw [bmp_loader_load_size_eq_ok (bmp_serialize g) g.dimensions.height _ h1, h2]
  have hvalid : ∀ c ∈ '\n' :: g.data.map pixel_char,
      bmp_valid_whitespace c = true ∨ bmp_valid_pix c = true := by
    intro c hc
    rcases List.mem_cons.mp hc with hc | hc
    · left; rw [hc]; rfl
    · right
      obtain ⟨b, _, hb⟩ := List.mem_map.mp hc
      rw [← hb]
      exact pixel_char_pix b
  have hpc : pix_chars ('\n' :: g.data.map pixel_char) = g.data := by
    rw [pix_chars_cons_ws '\n' _ rfl, pix_chars_map_pixel_char]
  have hiw : bmp_loader_ignore_whitespace (bmp_size_raw g.dimensions)
      ('\n' :: g.data.map pixel_char) [] = .ok g.data := by
    rw [bmp_loader_ignore_whitespace_ok (bmp_size_raw g.dimensions)
      ('\n' :: g.data.map pixel_char) [] hvalid (by simp [hpc, hlen])]
    rw [hpc]
    rfl
  rw [bmp_loader_load_eq_of (bmp_serialize g) g.dimensions
    ('\n' :: g.data.map pixel_char) hsz, hiw]
  simp [hlen]

/-- Witness for C8 at the Scenario 1 file. -/
theorem spec_c8_roundtrip_witness :
    bmp_loader_load
        (bmp_serialize ⟨⟨3, 2⟩, [true, true, true, false, true, false]⟩) =
      .ok ⟨⟨3, 2⟩, [true, true, true, false, true, false]⟩ :=
  spec_c8_roundtrip "2 3\n111\n010\n".toList
    ⟨⟨3, 2⟩, [true, true, true, false, true, false]⟩ (by decide)

/- =========================================
   The comparator below the wraparound threshold
   ========================================= -/

theorem u32_sub_to_int (a b : Nat) (ha : a < INT_HALF) (hb : b < INT_HALF) :
    u32_to_int (u32_sub a b) = (a : Int) - (b : Int) := by
  simp only [u32_sub, u32_to_int, U32_MOD, INT_HALF] at *
  split
  next h => omega
  next h => omega

theorem u32_sub_ne_zero (a b : Nat) (ha : a < U32_MOD) (hb : b < U32_MOD)
    (h : a ≠ b) : u32_sub a b ≠ 0 := by
  simp only [u32_sub, U32_MOD] at *
  omega

theorem u32_sub_self (a : Nat) : u32_sub a a = 0 := by
  simp only [u32_sub, U32_MOD]
  omega

theorem int_half_lt_u32_mod : INT_HALF < U32_MOD := by decide

/-- Below the threshold, a strictly smaller size key makes the comparator
negative (the replace direction). -/
theorem shape_geometry_cmp_neg_of_sf_lt (lhs rhs : ShapeGeometry)
    (sf : ShapeGeometry → Nat) (h1 : sf lhs < INT_HALF) (h2 : sf rhs < INT_HALF)
    (h : sf lhs < sf rhs) : shape_geometry_cmp lhs rhs sf < 0 := by
  rw [shape_geometry_cmp]
  have hm : INT_HALF < U32_MOD := int_half_lt_u32_mod
  have hne : u32_sub (sf lhs) (sf rhs) ≠ 0 :=
    u32_sub_ne_zero _ _ (by omega) (by omega) (by omega)
  rw [if_pos hne, u32_sub_to_int _ _ h1 h2]
  omega

/-- Below the threshold, a strictly larger size key makes the comparator
positive (the keep direction). -/
theorem shape_geometry_cmp_pos_of_sf_gt (lhs rhs : ShapeGeometry)
    (sf : ShapeGeometry → Nat) (h1 : sf lhs < INT_HALF) (h2 : sf rhs < INT_HALF)
    (h : sf rhs < sf lhs) : 0 < shape_geometry_cmp lhs rhs sf := by
  rw [shape_geometry_cmp]
  have hm : INT_HALF < U32_MOD := int_half_lt_u32_mod
  have hne : u32_sub (sf lhs) (sf rhs) ≠ 0 :=
    u32_sub_ne_zero _ _ (by omega) (by omega) (by omega)
  rw [if_pos hne, u32_sub_to_int _ _ h1 h2]
  omega

/-- Below the threshold, the comparator keeps an equal-sized `lhs` that sits
at a smaller row, or at an equal row and a smaller column. -/
theorem shape_geometry_cmp_pos_of_tie (lhs rhs : ShapeGeometry)
    (sf : ShapeGeometry → Nat)
    (h3 : lhs.start.y < INT_HALF) (h4 : rhs.start.y < INT_HALF)
    (h5 : lhs.start.x < INT_HALF) (h6 : rhs.start.x < INT_HALF)
    (heq : sf lhs = sf rhs)
    (hor : lhs.start.y < rhs.start.y ∨
      (lhs.start.y = rhs.start.y ∧ lhs.start.x < rhs.start.x)) :
    0 < shape_geometry_cmp lhs rhs sf := by
  rw [shape_geometry_cmp]
  have hz : u32_sub (sf lhs) (sf rhs) = 0 := by rw [heq]; exact u32_sub_self _
  rw [if_neg (by simp [hz])]
  rcases hor with hy | ⟨hyeq, hx⟩
  · rw [if_pos (Nat.ne_of_lt hy), u32_sub_to_int _ _ h4 h3]
    omega
  · rw [if_neg (by simp [hyeq]), u32_sub_to_int _ _ h6 h5]
    omega

theorem shape_geometry_is_invalid_false (s : ShapeGeometry)
    (h1 : s.start.x < COORD_INVALID) (h2 : s.start.y < COORD_INVALID)
    (h3 : s.end_.x < COORD_INVALID) (h4 : s.end_.y < COORD_INVALID) :
    shape_geometry_is_invalid s = false := by
  simp only [shape_geometry_is_invalid, point_is_invalid, Bool.or_eq_false_iff,
    beq_eq_false_iff_ne]
  exact ⟨⟨Nat.ne_of_lt h1, Nat.ne_of_lt h2⟩, ⟨Nat.ne_of_lt h3, Nat.ne_of_lt h4⟩⟩

theorem int_half_lt_coord_invalid : INT_HALF < COORD_INVALID := by decide

/- =========================================
   Completeness of the longest-horizontal-line scan below the threshold
   ========================================= -/

/-- A genuine horizontal line of the bitmap: one in-range row, left end at or
before right end, every pixel on it filled. -/
def good_hline (bmp : Bitmap) (s : ShapeGeometry) : Prop :=
  s.start.y < bmp.dimensions.height ∧ s.end_.y = s.start.y ∧
  s.start.x ≤ s.end_.x ∧ s.end_.x < bmp.dimensions.width ∧
  (∀ z, s.start.x ≤ z → z ≤ s.end_.x → bmp_at bmp s.start.y z = true)

/-- The `(max, max_length)` state relation of `line_find_longest_hline`. -/
def hstate (bmp : Bitmap) (max : ShapeGeometry) (max_length : Nat) : Prop :=
  (max_length = 0 ∧ shape_geometry_is_invalid max = true) ∨
  (shape_geometry_is_invalid max = false ∧ max_length = hline_length max ∧
    max_length ≤ bmp.dimensions.width ∧ good_hline bmp max)

theorem longest_hline_row_fuel_complete (bmp : Bitmap) (row : Nat)
    (hw : bmp.dimensions.width < INT_HALF) (hh : bmp.dimensions.height < INT_HALF)
    (hrow : row < bmp.dimensions.height) :
    ∀ fuel col max max_length,
      bmp.dimensions.width ≤ col + fuel →
      hstate bmp max max_length →
      max_length ≤ (longest_hline_row_fuel bmp row fuel col max max_length).2 ∧
      hstate bmp (longest_hline_row_fuel bmp row fuel col max max_length).1
        (longest_hline_row_fuel bmp row fuel col max max_length).2 ∧
      (∀ a b, col ≤ a → a ≤ b → b < bmp.dimensions.width →
        (∀ z, a ≤ z → z ≤ b → bmp_at bmp row z = true) →
        b - a + 1 ≤ (longest_hline_row_fuel bmp row fuel col max max_length).2) := by
  have hci : INT_HALF < COORD_INVALID := int_half_lt_coord_invalid
  intro fuel
  induction fuel with
  | zero =>
    intro col max ml hfuel hst
    rw [longest_hline_row_fuel]
    exact ⟨Nat.le_refl _, hst, fun a b ha hab hb _ => by omega⟩
  | succ n ih =>
    intro col max ml hfuel hst
    rw [longest_hline_row_fuel]
    by_cases hguard : col < bmp.dimensions.width - ml
    case neg =>
      rw [if_neg hguard]
      exact ⟨Nat.le_refl _, hst, fun a b ha hab hb _ => by omega⟩
    case pos =>
    rw [if_pos hguard]
    have hcw : col < bmp.dimensions.width := by omega
    by_cases hpix : bmp_at bmp row col = true
    case neg =>
      have hpixf : bmp_at bmp row col = false := by simpa using hpix
      rw [line_find_hline_invalid bmp (point_ctor col row) hpixf]
      rw [if_pos (by decide)]
      obtain ⟨i1, i2, i3⟩ := ih (col + 1) max ml (by omega) hst
      refine ⟨i1, i2, ?_⟩
      intro a b ha hab hb hfill
      rcases Nat.eq_or_lt_of_le ha with heqa | hlta
      · exfalso
        have := hfill col (by omega) (by omega)
        rw [hpixf] at this
        exact absurd this (by simp)
      · exact i3 a b (by omega) hab hb hfill
    case pos =>
      have heqL := line_find_hline_eq bmp (point_ctor col row) hpix
      have hSle := line_find_hline_start_le bmp (point_ctor col row) hpix
      have hLlt := line_find_hline_end_lt bmp (point_ctor col row) hpix hcw
      have hLfill := line_find_hline_filled bmp (point_ctor col row) hpix
      have hLmax := line_find_hline_max bmp (point_ctor col row) hpix hcw
      simp only [shape_geometry_ctor, point_ctor] at heqL hSle hLlt hLfill hLmax ⊢
      simp only [heqL] at hSle hLlt hLfill hLmax ⊢
      have hinv : shape_geometry_is_invalid
          (⟨⟨col, row⟩, ⟨hline_scan bmp row (col + 1) - 1, row⟩⟩ : ShapeGeometry) =
            false := by
        refine shape_geometry_is_invalid_false _ ?_ ?_ ?_ ?_
        · show col < COORD_INVALID
          omega
        · show row < COORD_INVALID
          omega
        · show hline_scan bmp row (col + 1) - 1 < COORD_INVALID
          omega
        · show row < COORD_INVALID
          omega
      rw [hinv]
      rw [if_neg (by simp)]
      have hlenL : hline_length
          (⟨⟨col, row⟩, ⟨hline_scan bmp row (col + 1) - 1, row⟩⟩ : ShapeGeometry) =
            hline_scan bmp row (col + 1) - 1 - col + 1 := rfl
      have hgoodL : good_hline bmp
          (⟨⟨col, row⟩, ⟨hline_scan bmp row (col + 1) - 1, row⟩⟩ : ShapeGeometry) :=
        ⟨hrow, rfl, hSle, hLlt, hLfill⟩
      by_cases hb1 : shape_geometry_is_invalid max = true ∨
          hline_cmp max (⟨⟨col, row⟩, ⟨hline_scan bmp row (col + 1) - 1, row⟩⟩ :
            ShapeGeometry) < 0
      · rw [if_pos hb1]
        rw [hlenL]
        have hmlle : ml ≤ hline_scan bmp row (col + 1) - 1 - col + 1 := by
          rcases hst with ⟨hz, _⟩ | ⟨hv, hml, hmlw, _⟩
          · omega
          · rcases hb1 with hx | hcmp
            · rw [hv] at hx; exact absurd hx (by simp)
            · by_contra hgt
              have := shape_geometry_cmp_pos_of_sf_gt max _ hline_length
                (by omega) (by rw [hlenL]; omega) (by rw [hlenL, ← hml]; omega)
              rw [hline_cmp] at hcmp
              omega
        obtain ⟨i1, i2, i3⟩ := ih (hline_scan bmp row (col + 1) - 1 + 1)
          (⟨⟨col, row⟩, ⟨hline_scan bmp row (col + 1) - 1, row⟩⟩ : ShapeGeometry)
          (hline_scan bmp row (col + 1) - 1 - col + 1)
          (by omega)
          (Or.inr ⟨hinv, by rw [hlenL], by omega, hgoodL⟩)
        refine ⟨by omega, i2, ?_⟩
        intro a b ha hab hb hfill
        rcases Nat.lt_or_ge a (hline_scan bmp row (col + 1) - 1 + 1) with hlta | hgea
        · have hbE : b ≤ hline_scan bmp row (col + 1) - 1 := by
            by_contra hbgt
            have hlt2 : hline_scan bmp row (col + 1) - 1 + 1 < bmp.dimensions.width := by
              omega
            have := hLmax hlt2
            have hfz := hfill (hline_scan bmp row (col + 1) - 1 + 1) (by omega) (by omega)
            rw [this] at hfz
            exact absurd hfz (by simp)
          omega
        · exact i3 a b hgea hab hb hfill
      · rw [if_neg hb1]
        push_neg at hb1
        obtain ⟨hvne, hcmp⟩ := hb1
        rcases hst with ⟨hz, hvi⟩ | ⟨hv, hml, hmlw, hgood⟩
        · exact absurd hvi hvne
        · have hlele : hline_scan bmp row (col + 1) - 1 - col + 1 ≤ ml := by
            by_contra hgt
            have := shape_geometry_cmp_neg_of_sf_lt max _ hline_length
              (by omega) (by rw [hlenL]; omega) (by rw [hlenL, ← hml]; omega)
            rw [hline_cmp] at hcmp
            omega
          obtain ⟨i1, i2, i3⟩ := ih (hline_scan bmp row (col + 1) - 1 + 1) max ml
            (by omega) (Or.inr ⟨hv, hml, hmlw, hgood⟩)
          refine ⟨i1, i2, ?_⟩
          intro a b ha hab hb hfill
          rcases Nat.lt_or_ge a (hline_scan bmp row (col + 1) - 1 + 1) with hlta | hgea
          · have hbE : b ≤ hline_scan bmp row (col + 1) - 1 := by
              by_contra hbgt
              have hlt2 : hline_scan bmp row (col + 1) - 1 + 1 < bmp.dimensions.width := by
                omega
              have := hLmax hlt2
              have hfz := hfill (hline_scan bmp row (col + 1) - 1 + 1) (by omega) (by omega)
              rw [this] at hfz
              exact absurd hfz (by simp)
            omega
          · exact i3 a b hgea hab hb hfill

theorem longest_hline_rows_fuel_complete (bmp : Bitmap)
    (hw : bmp.dimensions.width < INT_HALF) (hh : bmp.dimensions.height < INT_HALF) :
    ∀ fuel row max max_length,
      bmp.dimensions.height ≤ row + fuel →
      hstate bmp max max_length →
      max_length ≤ (longest_hline_rows_fuel bmp fuel row max max_length).2 ∧
      hstate bmp (longest_hline_rows_fuel bmp fuel row max max_length).1
        (longest_hline_rows_fuel bmp fuel row max max_length).2 ∧
      (∀ r a b, row ≤ r → r < bmp.dimensions.height → a ≤ b →
        b < bmp.dimensions.width →
        (∀ z, a ≤ z → z ≤ b → bmp_at bmp r z = true) →
        b - a + 1 ≤ (longest_hline_rows_fuel bmp fuel row max max_length).2) := by
  intro fuel
  induction fuel with
  | zero =>
    intro row max ml hfuel hst
    rw [longest_hline_rows_fuel]
    exact ⟨Nat.le_refl _, hst, fun r a b hr1 hr2 _ _ _ => by omega⟩
  | succ n ih =>
    intro row max ml hfuel hst
    rw [longest_hline_rows_fuel]
    by_cases hrow : row < bmp.dimensions.height
    case neg =>
      rw [if_neg hrow]
      exact ⟨Nat.le_refl _, hst, fun r a b hr1 hr2 _ _ _ => by omega⟩
    case pos =>
      rw [if_pos hrow]
      have hzeta : (let acc := longest_hline_row_fuel bmp row bmp.dimensions.width 0 max ml;
          longest_hline_rows_fuel bmp n (row + 1) acc.1 acc.2) =
          longest_hline_rows_fuel bmp n (row + 1)
            (longest_hline_row_fuel bmp row bmp.dimensions.width 0 max ml).1
            (longest_hline_row_fuel bmp row bmp.dimensions.width 0 max ml).2 := rfl
      rw [hzeta]
      obtain ⟨i1, i2, i3⟩ := longest_hline_row_fuel_complete bmp row hw hh hrow
        bmp.dimensions.width 0 max ml (by omega) hst
      obtain ⟨j1, j2, j3⟩ := ih (row + 1)
        (longest_hline_row_fuel bmp row bmp.dimensions.width 0 max ml).1
        (longest_hline_row_fuel bmp row bmp.dimensions.width 0 max ml).2
        (by omega) i2
      refine ⟨by omega, j2, ?_⟩
      intro r a b hr1 hr2 hab hb hfill
      rcases Nat.eq_or_lt_of_le hr1 with heqr | hltr
      · have := i3 a b (Nat.zero_le a) hab hb (by rw [← heqr] at hfill; exact hfill)
        omega
      · exact j3 r a b hltr hr2 hab hb hfill

/-- Below the wraparound threshold, `line_find_longest_hline` dominates every
contiguous horizontal run of filled pixels: the length the claim C5 asserts.
(The general claim fails at the threshold — see the C5 analysis.) -/
theorem line_find_longest_hline_complete (bmp : Bitmap)
    (hw : bmp.dimensions.width < INT_HALF) (hh : bmp.dimensions.height < INT_HALF)
    (row a b : Nat) (hr : row < bmp.dimensions.height) (hab : a ≤ b)
    (hb : b < bmp.dimensions.width)
    (hfill : ∀ z, a ≤ z → z ≤ b → bmp_at bmp row z = true) :
    shape_geometry_is_invalid (line_find_longest_hline bmp) = false ∧
    b - a + 1 ≤ hline_length (line_find_longest_hline bmp) := by
  obtain ⟨i1, i2, i3⟩ := longest_hline_rows_fuel_complete bmp hw hh
    bmp.dimensions.height 0 shape_geometry_invalid_ctor 0 (by omega)
    (Or.inl ⟨rfl, by decide⟩)
  have hlen := i3 row a b (Nat.zero_le row) hr hab hb hfill
  rcases i2 with ⟨hz, _⟩ | ⟨hv, hml, _, _⟩
  · omega
  · rw [line_find_longest_hline]
    exact ⟨hv, by rw [← hml]; exact hlen⟩

/-- Below the threshold, a non-sentinel result of `line_find_longest_hline`
is a genuine filled horizontal line of the bitmap. -/
theorem line_find_longest_hline_sound (bmp : Bitmap)
    (hw : bmp.dimensions.width < INT_HALF) (hh : bmp.dimensions.height < INT_HALF)
    (h : shape_geometry_is_invalid (line_find_longest_hline bmp) = false) :
    good_hline bmp (line_find_longest_hline bmp) := by
  obtain ⟨i1, i2, i3⟩ := longest_hline_rows_fuel_complete bmp hw hh
    bmp.dimensions.height 0 shape_geometry_invalid_ctor 0 (by omega)
    (Or.inl ⟨rfl, by decide⟩)
  rw [line_find_longest_hline] at h ⊢
  rcases i2 with ⟨_, hvi⟩ | ⟨_, _, _, hgood⟩
  · rw [h] at hvi
    exact absurd hvi (by simp)
  · exact hgood

/-- Witness for the completeness theorem at the Scenario 1 bitmap. -/
theorem line_find_longest_hline_complete_witness :
    shape_geometry_is_invalid
        (line_find_longest_hline ⟨⟨3, 2⟩, [true, true, true, false, true, false]⟩) =
      false ∧
    2 - 0 + 1 ≤ hline_length
      (line_find_longest_hline ⟨⟨3, 2⟩, [true, true, true, false, true, false]⟩) :=
  line_find_longest_hline_complete ⟨⟨3, 2⟩, [true, true, true, false, true, false]⟩
    (by decide) (by decide) 0 0 2 (by decide) (by decide) (by decide) (by decide)

/- ---- clearing a pixel never raises the reported maximum ---- -/

/-- The bitmap with the pixel at `(row, col)` turned empty. -/
def bmp_clear (bmp : Bitmap) (row col : Nat) : Bitmap :=
  ⟨bmp.dimensions, bmp.data.set (row * bmp.dimensions.width + col) false⟩

/-- The length reported for the longest-horizontal query (0 on "Not found"). -/
def reported_hline_length (bmp : Bitmap) : Nat :=
  if shape_geometry_is_invalid (line_find_longest_hline bmp) = true then 0
  else hline_length (line_find_longest_hline bmp)

theorem getD_set_false (l : List Bool) :
    ∀ i j, (l.set i false).getD j false = true → l.getD j false = true := by
  induction l with
  | nil => intro i j h; simp at h
  | cons x l ih =>
    intro i j h
    cases i with
    | zero =>
      cases j with
      | zero => simp at h
      | succ j =>
        rw [List.set_cons_zero] at h
        rw [List.getD_cons_succ] at h ⊢
        exact h
    | succ i =>
      cases j with
      | zero =>
        rw [List.set_cons_succ] at h
        rw [List.getD_cons_zero] at h ⊢
        exact h
      | succ j =>
        rw [List.set_cons_succ] at h
        rw [List.getD_cons_succ] at h ⊢
        exact ih i j h

/-- Below the threshold, turning any filled pixel empty never increases the
reported maximum horizontal run length (the monotonicity half of claim C5). -/
theorem line_find_longest_hline_antitone (bmp : Bitmap)
    (hw : bmp.dimensions.width < INT_HALF) (hh : bmp.dimensions.height < INT_HALF)
    (row col : Nat) :
    reported_hline_length (bmp_clear bmp row col) ≤ reported_hline_length bmp := by
  by_cases hinv : shape_geometry_is_invalid
      (line_find_longest_hline (bmp_clear bmp row col)) = true
  · rw [reported_hline_length, if_pos hinv]
    exact Nat.zero_le _
  · have hinv2 : shape_geometry_is_invalid
        (line_find_longest_hline (bmp_clear bmp row col)) = false := by
      simpa using hinv
    have hgood := line_find_longest_hline_sound (bmp_clear bmp row col) hw hh hinv2
    obtain ⟨g1, g2, g3, g4, g5⟩ := hgood
    have hseg : ∀ z, (line_find_longest_hline (bmp_clear bmp row col)).start.x ≤ z →
        z ≤ (line_find_longest_hline (bmp_clear bmp row col)).end_.x →
        bmp_at bmp (line_find_longest_hline (bmp_clear bmp row col)).start.y z = true := by
      intro z hz1 hz2
      have := g5 z hz1 hz2
      rw [bmp_at] at this ⊢
      exact getD_set_false bmp.data _ _ this
    have hc := line_find_longest_hline_complete bmp hw hh
      (line_find_longest_hline (bmp_clear bmp row col)).start.y
      (line_find_longest_hline (bmp_clear bmp row col)).start.x
      (line_find_longest_hline (bmp_clear bmp row col)).end_.x
      g1 g3 g4 hseg
    rw [reported_hline_length, if_neg (by simp [hinv2]), reported_hline_length,
      if_neg (by simp [hc.1])]
    have := hc.2
    rw [hline_length]
    omega

/- =========================================
   The optimized square scan against the exhaustive scan (claim C4)
   ========================================= -/

/-- The exhaustive reference of claim C4: visit every anchor in row-major
order and run the full probe/verify/shrink at every filled anchor, with
neither the remaining-area early return nor the candidate skip. -/
def square_anchor_full (bmp : Bitmap) (top_left : Point)
    (max : ShapeGeometry) (max_length : Nat) : ShapeGeometry × Nat :=
  if square_found_valid_square bmp top_left
      (square_move_along_orthogonals bmp top_left) = true then
    square_set_max_square max max_length
      (shape_geometry_ctor top_left (square_move_along_orthogonals bmp top_left))
  else
    square_shrink bmp top_left (square_move_along_orthogonals bmp top_left).x
      (square_move_along_orthogonals bmp top_left).y max max_length

def square_bruteforce_fuel (bmp : Bitmap) :
    Nat → Nat → ShapeGeometry → Nat → ShapeGeometry
  | 0, _, max, _ => max
  | fuel + 1, i, max, max_length =>
    if i < bmp.dimensions.width * bmp.dimensions.height then
      if bmp.data.getD i false = false then
        square_bruteforce_fuel bmp fuel (i + 1) max max_length
      else
        square_bruteforce_fuel bmp fuel (i + 1)
          (square_anchor_full bmp
            (point_ctor (i % bmp.dimensions.width) (i / bmp.dimensions.width))
            max max_length).1
          (square_anchor_full bmp
            (point_ctor (i % bmp.dimensions.width) (i / bmp.dimensions.width))
            max max_length).2
    else max

def square_bruteforce (bmp : Bitmap) : ShapeGeometry :=
  square_bruteforce_fuel bmp (bmp.dimensions.width * bmp.dimensions.height) 0
    shape_geometry_invalid_ctor 0

/-- The `(max, max_length)` state relation of the square scans at position
`i`: the current best, when present, is a square whose anchor was already
visited. -/
def sqstate (bmp : Bitmap) (i : Nat) (max : ShapeGeometry) (max_length : Nat) : Prop :=
  (max_length = 0 ∧ shape_geometry_is_invalid max = true) ∨
  (shape_geometry_is_invalid max = false ∧ max_length = square_side_length max ∧
    max_length ≤ bmp.dimensions.width ∧
    max.start.y * bmp.dimensions.width + max.start.x < i ∧
    max.start.x < bmp.dimensions.width ∧ max.start.y < bmp.dimensions.height)

theorem sqstate_mono (bmp : Bitmap) (i j : Nat) (max : ShapeGeometry)
    (max_length : Nat) (h : sqstate bmp i max max_length) (hij : i ≤ j) :
    sqstate bmp j max max_length := by
  rcases h with h | ⟨h1, h2, h3, h4, h5, h6⟩
  · exact Or.inl h
  · exact Or.inr ⟨h1, h2, h3, by omega, h5, h6⟩

/-- Row-major index order refines the (row, column) lexicographic order. -/
theorem idx_lt_lex (w ay ax cy cx : Nat) (_hax : ax < w) (hcx : cx < w)
    (h : ay * w + ax < cy * w + cx) :
    ay < cy ∨ (ay = cy ∧ ax < cx) := by
  rcases Nat.lt_trichotomy ay cy with h1 | h1 | h1
  · exact Or.inl h1
  · right
    refine ⟨h1, ?_⟩
    rw [h1] at h
    omega
  · exfalso
    have h2 : (cy + 1) * w ≤ ay * w := Nat.mul_le_mul_right w (by omega)
    have h3 : (cy + 1) * w = cy * w + w := by ring
    omega

/-- `square_set_max_square` keeps the current best when the candidate is
strictly smaller, or the same size but at a lexicographically later anchor
(all quantities below the wraparound threshold). -/
theorem square_set_max_square_keep (max cand : ShapeGeometry) (max_length : Nat)
    (hv : shape_geometry_is_invalid max = false)
    (_hml : max_length = square_side_length max)
    (hb1 : square_side_length max < INT_HALF)
    (hb2 : square_side_length cand < INT_HALF)
    (hy1 : max.start.y < INT_HALF) (hy2 : cand.start.y < INT_HALF)
    (hx1 : max.start.x < INT_HALF) (hx2 : cand.start.x < INT_HALF)
    (hord : square_side_length cand < square_side_length max ∨
      (square_side_length cand = square_side_length max ∧
        (max.start.y < cand.start.y ∨
          (max.start.y = cand.start.y ∧ max.start.x < cand.start.x)))) :
    square_set_max_square max max_length cand = (max, max_length) := by
  rw [square_set_max_square]
  rw [if_neg ?_]
  intro hcon
  rcases hcon with hbad | hcmp
  · rw [hv] at hbad
    exact absurd hbad (by simp)
  · rcases hord with hlt | ⟨heq, hpos⟩
    · have := shape_geometry_cmp_pos_of_sf_gt max cand square_side_length hb1 hb2 hlt
      rw [square_cmp] at hcmp
      omega
    · have := shape_geometry_cmp_pos_of_tie max cand square_side_length
        hy1 hy2 hx1 hx2 heq.symm hpos
      rw [square_cmp] at hcmp
      omega

/-- The shrinking fallback keeps the current best when even its largest
candidate cannot beat it. -/
theorem square_shrink_keep (bmp : Bitmap) (tl : Point) (max : ShapeGeometry)
    (max_length : Nat)
    (hv : shape_geometry_is_invalid max = false)
    (hml : max_length = square_side_length max)
    (hb1 : square_side_length max < INT_HALF)
    (hy1 : max.start.y < INT_HALF) (hy2 : tl.y < INT_HALF)
    (hx1 : max.start.x < INT_HALF) (hx2 : tl.x < INT_HALF)
    (hpos : max.start.y < tl.y ∨ (max.start.y = tl.y ∧ max.start.x < tl.x)) :
    ∀ x y, x - tl.x + 1 ≤ max_length → x + 1 < INT_HALF →
      square_shrink bmp tl x y max max_length = (max, max_length) := by
  intro x
  induction x with
  | zero =>
    intro y hside hxw
    rcases Nat.lt_or_ge 0 tl.x with hlt | hge
    · exact square_shrink_below bmp tl 0 y max max_length hlt
    · rw [square_shrink, if_neg (by omega)]
      by_cases hvv : square_found_valid_square bmp tl (point_ctor 0 y) = true
      · rw [if_pos hvv]
        refine square_set_max_square_keep max _ max_length hv hml hb1 ?_ hy1 hy2 hx1 hx2 ?_
        · show 0 - tl.x + 1 < INT_HALF
          omega
        · show 0 - tl.x + 1 < square_side_length max ∨ _
          rcases Nat.lt_or_ge (0 - tl.x + 1) (square_side_length max) with hc | hc
          · exact Or.inl hc
          · refine Or.inr ⟨?_, ?_⟩
            · show 0 - tl.x + 1 = square_side_length max
              omega
            · exact hpos
      · rw [if_neg hvv]
  | succ n ih =>
    intro y hside hxw
    rcases Nat.lt_or_ge (n + 1) tl.x with hlt | hge
    · exact square_shrink_below bmp tl (n + 1) y max max_length hlt
    · rw [square_shrink, if_neg (by omega)]
      by_cases hvv : square_found_valid_square bmp tl (point_ctor (n + 1) y) = true
      · rw [if_pos hvv]
        refine square_set_max_square_keep max _ max_length hv hml hb1 ?_ hy1 hy2 hx1 hx2 ?_
        · show n + 1 - tl.x + 1 < INT_HALF
          omega
        · show n + 1 - tl.x + 1 < square_side_length max ∨ _
          rcases Nat.lt_or_ge (n + 1 - tl.x + 1) (square_side_length max) with hc | hc
          · exact Or.inl hc
          · refine Or.inr ⟨?_, ?_⟩
            · show n + 1 - tl.x + 1 = square_side_length max
              omega
            · exact hpos
      · rw [if_neg hvv]
        exact ih (y - 1) (by omega) (by omega)

/-- The shrinking fallback either keeps the state or installs a candidate
anchored at `top_left` whose bottom-right column lies in `[tl.x, x]`. -/
theorem square_shrink_result (bmp : Bitmap) (tl : Point) :
    ∀ x y max max_length,
      square_shrink bmp tl x y max max_length = (max, max_length) ∨
      ∃ a b, a ≤ x ∧ b = y - (x - a) ∧
        square_shrink bmp tl x y max max_length =
          (shape_geometry_ctor tl (point_ctor a b), a - tl.x + 1) := by
  intro x
  induction x with
  | zero =>
    intro y max max_length
    rcases Nat.lt_or_ge 0 tl.x with hlt | hge
    · exact Or.inl (square_shrink_below bmp tl 0 y max max_length hlt)
    · rw [square_shrink, if_neg (by omega)]
      by_cases hvv : square_found_valid_square bmp tl (point_ctor 0 y) = true
      · rw [if_pos hvv]
        rcases square_set_max_square_cases max max_length
            (shape_geometry_ctor tl (point_ctor 0 y)) with hc | hc
        · exact Or.inl hc
        · exact Or.inr ⟨0, y, Nat.le_refl 0, by omega, hc⟩
      · rw [if_neg hvv]
        exact Or.inl rfl
  | succ n ih =>
    intro y max max_length
    rcases Nat.lt_or_ge (n + 1) tl.x with hlt | hge
    · exact Or.inl (square_shrink_below bmp tl (n + 1) y max max_length hlt)
    · rw [square_shrink, if_neg (by omega)]
      by_cases hvv : square_found_valid_square bmp tl (point_ctor (n + 1) y) = true
      · rw [if_pos hvv]
        rcases square_set_max_square_cases max max_length
            (shape_geometry_ctor tl (point_ctor (n + 1) y)) with hc | hc
        · exact Or.inl hc
        · exact Or.inr ⟨n + 1, y, Nat.le_refl _, by omega, hc⟩
      · rw [if_neg hvv]
        rcases ih (y - 1) max max_length with hc | ⟨a, b, h2, h3, h4⟩
        · exact Or.inl hc
        · exact Or.inr ⟨a, b, by omega, by omega, h4⟩

/-- The full anchor body either keeps the state or installs a candidate
anchored at `top_left` and bounded by the probe's corner. -/
theorem square_anchor_full_result (bmp : Bitmap) (tl : Point)
    (max : ShapeGeometry) (max_length : Nat) :
    square_anchor_full bmp tl max max_length = (max, max_length) ∨
    ∃ a b, a ≤ (square_move_along_orthogonals bmp tl).x ∧
      b ≤ (square_move_along_orthogonals bmp tl).y ∧
      square_anchor_full bmp tl max max_length =
        (shape_geometry_ctor tl (point_ctor a b), a - tl.x + 1) := by
  rw [square_anchor_full]
  by_cases hvv : square_found_valid_square bmp tl
      (square_move_along_orthogonals bmp tl) = true
  · rw [if_pos hvv]
    rcases square_set_max_square_cases max max_length
        (shape_geometry_ctor tl (square_move_along_orthogonals bmp tl)) with hc | hc
    · exact Or.inl hc
    · exact Or.inr ⟨(square_move_along_orthogonals bmp tl).x,
        (square_move_along_orthogonals bmp tl).y, Nat.le_refl _, Nat.le_refl _, hc⟩
  · rw [if_neg hvv]
    rcases square_shrink_result bmp tl (square_move_along_orthogonals bmp tl).x
        (square_move_along_orthogonals bmp tl).y max max_length with hc | ⟨a, b, h2, h3, h4⟩
    · exact Or.inl hc
    · exact Or.inr ⟨a, b, h2, by omega, h4⟩

/-- The full anchor body preserves the scan-state relation. -/
theorem square_anchor_full_state (bmp : Bitmap) (i : Nat)
    (max : ShapeGeometry) (max_length : Nat)
    (hw : bmp.dimensions.width < INT_HALF) (hh : bmp.dimensions.height < INT_HALF)
    (hi : i < bmp.dimensions.width * bmp.dimensions.height)
    (hfill : bmp_at bmp (i / bmp.dimensions.width) (i % bmp.dimensions.width) = true)
    (hst : sqstate bmp i max max_length) :
    sqstate bmp (i + 1)
      (square_anchor_full bmp
        (point_ctor (i % bmp.dimensions.width) (i / bmp.dimensions.width))
        max max_length).1
      (square_anchor_full bmp
        (point_ctor (i % bmp.dimensions.width) (i / bmp.dimensions.width))
        max max_length).2 := by
  have hwpos : 0 < bmp.dimensions.width := by
    rcases Nat.eq_zero_or_pos bmp.dimensions.width with h0 | h
    · rw [h0] at hi; simp at hi
    · exact h
  have hcol : i % bmp.dimensions.width < bmp.dimensions.width := Nat.mod_lt _ hwpos
  have hrow : i / bmp.dimensions.width < bmp.dimensions.height := Nat.div_lt_of_lt_mul hi
  have hprobe := square_move_spec bmp
    (point_ctor (i % bmp.dimensions.width) (i / bmp.dimensions.width)) hfill hcol hrow
  obtain ⟨hp1, hp2, hp3, hp4, hp5, hp6, hp7⟩ := hprobe
  have hci : INT_HALF < COORD_INVALID := int_half_lt_coord_invalid
  rcases square_anchor_full_result bmp
      (point_ctor (i % bmp.dimensions.width) (i / bmp.dimensions.width))
      max max_length with hk | ⟨a, b, h2, h3, h4⟩
  · rw [hk]
    exact sqstate_mono bmp i (i + 1) max max_length hst (by omega)
  · rw [h4]
    right
    refine ⟨?_, rfl, ?_, ?_, ?_, ?_⟩
    · refine shape_geometry_is_invalid_false _ ?_ ?_ ?_ ?_
      · show i % bmp.dimensions.width < COORD_INVALID
        omega
      · show i / bmp.dimensions.width < COORD_INVALID
        omega
      · show a < COORD_INVALID
        omega
      · show b < COORD_INVALID
        omega
    · show a - i % bmp.dimensions.width + 1 ≤ bmp.dimensions.width
      omega
    · show i / bmp.dimensions.width * bmp.dimensions.width +
        i % bmp.dimensions.width < i + 1
      have hid : i / bmp.dimensions.width * bmp.dimensions.width +
          i % bmp.dimensions.width = i := by
        rw [Nat.mul_comm, Nat.div_add_mod]
      omega
    · exact hcol
    · exact hrow

/-- The full anchor body keeps the state whenever the probe's candidate
cannot exceed the current best (below the wraparound threshold). -/
theorem square_anchor_full_noop (bmp : Bitmap) (i : Nat)
    (max : ShapeGeometry) (max_length : Nat)
    (hw : bmp.dimensions.width < INT_HALF) (hh : bmp.dimensions.height < INT_HALF)
    (hi : i < bmp.dimensions.width * bmp.dimensions.height)
    (hfill : bmp_at bmp (i / bmp.dimensions.width) (i % bmp.dimensions.width) = true)
    (hst : sqstate bmp i max max_length)
    (hmlpos : 0 < max_length)
    (hside : (square_move_along_orthogonals bmp
        (point_ctor (i % bmp.dimensions.width) (i / bmp.dimensions.width))).x
        - i % bmp.dimensions.width + 1 ≤ max_length) :
    square_anchor_full bmp
      (point_ctor (i % bmp.dimensions.width) (i / bmp.dimensions.width))
      max max_length = (max, max_length) := by
  rcases hst with ⟨h0, _⟩ | ⟨hv, hml, hmlw, hpos4, hx5, hy6⟩
  · omega
  have hwpos : 0 < bmp.dimensions.width := by
    rcases Nat.eq_zero_or_pos bmp.dimensions.width with h0 | h
    · rw [h0] at hi; simp at hi
    · exact h
  have hcol : i % bmp.dimensions.width < bmp.dimensions.width := Nat.mod_lt _ hwpos
  have hrow : i / bmp.dimensions.width < bmp.dimensions.height := Nat.div_lt_of_lt_mul hi
  have hprobe := square_move_spec bmp
    (point_ctor (i % bmp.dimensions.width) (i / bmp.dimensions.width)) hfill hcol hrow
  obtain ⟨hp1, hp2, hp3, hp4, hp5, hp6, hp7⟩ := hprobe
  have hid : i / bmp.dimensions.width * bmp.dimensions.width +
      i % bmp.dimensions.width = i := by
    rw [Nat.mul_comm, Nat.div_add_mod]
  have hlex : max.start.y < i / bmp.dimensions.width ∨
      (max.start.y = i / bmp.dimensions.width ∧
        max.start.x < i % bmp.dimensions.width) :=
    idx_lt_lex bmp.dimensions.width max.start.y max.start.x
      (i / bmp.dimensions.width) (i % bmp.dimensions.width) hx5 hcol (by omega)
  rw [square_anchor_full]
  by_cases hvv : square_found_valid_square bmp
      (point_ctor (i % bmp.dimensions.width) (i / bmp.dimensions.width))
      (square_move_along_orthogonals bmp
        (point_ctor (i % bmp.dimensions.width) (i / bmp.dimensions.width))) = true
  · rw [if_pos hvv]
    refine square_set_max_square_keep max _ max_length hv hml ?_ ?_ ?_ ?_ ?_ ?_ ?_
    · omega
    · show (square_move_along_orthogonals bmp
        (point_ctor (i % bmp.dimensions.width) (i / bmp.dimensions.width))).x
        - i % bmp.dimensions.width + 1 < INT_HALF
      omega
    · omega
    · show i / bmp.dimensions.width < INT_HALF
      omega
    · omega
    · show i % bmp.dimensions.width < INT_HALF
      omega
    · rcases Nat.lt_or_ge ((square_move_along_orthogonals bmp
          (point_ctor (i % bmp.dimensions.width) (i / bmp.dimensions.width))).x
          - i % bmp.dimensions.width + 1) (square_side_length max) with hc | hc
      · exact Or.inl hc
      · refine Or.inr ⟨?_, ?_⟩
        · show (square_move_along_orthogonals bmp
            (point_ctor (i % bmp.dimensions.width) (i / bmp.dimensions.width))).x
            - i % bmp.dimensions.width + 1 = square_side_length max
          omega
        · exact hlex
  · rw [if_neg hvv]
    exact square_shrink_keep bmp
      (point_ctor (i % bmp.dimensions.width) (i / bmp.dimensions.width))
      max max_length hv hml (by omega) (by omega)
      (show i / bmp.dimensions.width < INT_HALF by omega) (by omega)
      (show i % bmp.dimensions.width < INT_HALF by omega) hlex
      (square_move_along_orthogonals bmp
        (point_ctor (i % bmp.dimensions.width) (i / bmp.dimensions.width))).x
      (square_move_along_orthogonals bmp
        (point_ctor (i % bmp.dimensions.width) (i / bmp.dimensions.width))).y
      hside (by omega)

/-- Once the current best's area reaches the remaining area, the exhaustive
scan can no longer improve: every later candidate fits under `max_length`. -/
theorem square_bruteforce_tail (bmp : Bitmap)
    (hw : bmp.dimensions.width < INT_HALF) (hh : bmp.dimensions.height < INT_HALF) :
    ∀ fuel j max max_length, sqstate bmp j max max_length →
      max_length * max_length ≥
        (bmp.dimensions.height - j / bmp.dimensions.width) * bmp.dimensions.width →
      square_bruteforce_fuel bmp fuel j max max_length = max := by
  intro fuel
  induction fuel with
  | zero =>
    intro j max ml hst harea
    rw [square_bruteforce_fuel]
  | succ n ih =>
    intro j max ml hst harea
    rw [square_bruteforce_fuel]
    by_cases hj : j < bmp.dimensions.width * bmp.dimensions.height
    · rw [if_pos hj]
      have hdiv : j / bmp.dimensions.width ≤ (j + 1) / bmp.dimensions.width :=
        Nat.div_le_div_right (by omega)
      have hmul : (bmp.dimensions.height - (j + 1) / bmp.dimensions.width) *
          bmp.dimensions.width ≤
          (bmp.dimensions.height - j / bmp.dimensions.width) * bmp.dimensions.width :=
        Nat.mul_le_mul_right _ (by omega)
      by_cases hpix : bmp.data.getD j false = false
      · rw [if_pos hpix]
        exact ih (j + 1) max ml (sqstate_mono bmp j (j + 1) max ml hst (by omega)) (by omega)
      · rw [if_neg hpix]
        have hwpos : 0 < bmp.dimensions.width := by
          rcases Nat.eq_zero_or_pos bmp.dimensions.width with h0 | h
          · rw [h0] at hj; simp at hj
          · exact h
        have hcol : j % bmp.dimensions.width < bmp.dimensions.width := Nat.mod_lt _ hwpos
        have hrow : j / bmp.dimensions.width < bmp.dimensions.height :=
          Nat.div_lt_of_lt_mul hj
        have hid : j / bmp.dimensions.width * bmp.dimensions.width +
            j % bmp.dimensions.width = j := by
          rw [Nat.mul_comm, Nat.div_add_mod]
        have hfill : bmp_at bmp (j / bmp.dimensions.width)
            (j % bmp.dimensions.width) = true := by
          rw [bmp_at]
          show bmp.data.getD
            (j / bmp.dimensions.width * bmp.dimensions.width + j % bmp.dimensions.width)
            false = true
          rw [hid]
          simpa using hpix
        have hmlpos : 0 < ml := by
          rcases hst with ⟨h0, _⟩ | ⟨_, hml, _, _, _, _⟩
          · exfalso
            subst h0
            have hone : 1 * 1 ≤ (bmp.dimensions.height - j / bmp.dimensions.width) *
                bmp.dimensions.width :=
              Nat.mul_le_mul (by omega) (by omega)
            omega
          · rw [square_side_length] at hml
            omega
        obtain ⟨hp1, hp2, hp3, hp4, hp5, hp6, hp7⟩ := square_move_spec bmp
          (point_ctor (j % bmp.dimensions.width) (j / bmp.dimensions.width)) hfill hcol hrow
        have hpcx : (point_ctor (j % bmp.dimensions.width) (j / bmp.dimensions.width)).x =
            j % bmp.dimensions.width := rfl
        have hpcy : (point_ctor (j % bmp.dimensions.width) (j / bmp.dimensions.width)).y =
            j / bmp.dimensions.width := rfl
        have hS1 : (square_move_along_orthogonals bmp
            (point_ctor (j % bmp.dimensions.width) (j / bmp.dimensions.width))).x
            - j % bmp.dimensions.width + 1 ≤
            bmp.dimensions.height - j / bmp.dimensions.width := by
          omega
        have hS2 : (square_move_along_orthogonals bmp
            (point_ctor (j % bmp.dimensions.width) (j / bmp.dimensions.width))).x
            - j % bmp.dimensions.width + 1 ≤ bmp.dimensions.width := by
          omega
        have hSS : ((square_move_along_orthogonals bmp
            (point_ctor (j % bmp.dimensions.width) (j / bmp.dimensions.width))).x
            - j % bmp.dimensions.width + 1) *
            ((square_move_along_orthogonals bmp
            (point_ctor (j % bmp.dimensions.width) (j / bmp.dimensions.width))).x
            - j % bmp.dimensions.width + 1) ≤
            (bmp.dimensions.height - j / bmp.dimensions.width) * bmp.dimensions.width :=
          Nat.mul_le_mul hS1 hS2
        have hside : (square_move_along_orthogonals bmp
            (point_ctor (j % bmp.dimensions.width) (j / bmp.dimensions.width))).x
            - j % bmp.dimensions.width + 1 ≤ ml := by
          by_contra hcon
          push_neg at hcon
          have := Nat.mul_self_lt_mul_self hcon
          omega
        rw [square_anchor_full_noop bmp j max ml hw hh hj hfill hst hmlpos hside]
        exact ih (j + 1) max ml (sqstate_mono bmp j (j + 1) max ml hst (by omega)) (by omega)
    · rw [if_neg hj]

/-- The optimized anchor loop computes exactly what the exhaustive anchor
loop computes, below the wraparound threshold. -/
theorem square_scan_fuel_eq_bruteforce (bmp : Bitmap)
    (hw : bmp.dimensions.width < INT_HALF) (hh : bmp.dimensions.height < INT_HALF) :
    ∀ fuel i max max_length, sqstate bmp i max max_length →
      square_scan_fuel bmp fuel i max max_length =
        square_bruteforce_fuel bmp fuel i max max_length := by
  intro fuel
  induction fuel with
  | zero =>
    intro i max ml hst
    rw [square_scan_fuel, square_bruteforce_fuel]
  | succ n ih =>
    intro i max ml hst
    rw [square_scan_fuel]
    by_cases hi : i < bmp.dimensions.width * bmp.dimensions.height
    · rw [if_pos hi]
      by_cases hpix : bmp.data.getD i false = false
      · rw [if_pos hpix, square_bruteforce_fuel, if_pos hi, if_pos hpix]
        exact ih (i + 1) max ml (sqstate_mono bmp i (i + 1) max ml hst (by omega))
      · rw [if_neg hpix]
        by_cases harea : ml * ml ≥
            (bmp.dimensions.height - i / bmp.dimensions.width) * bmp.dimensions.width
        · rw [if_pos harea]
          exact (square_bruteforce_tail bmp hw hh (n + 1) i max ml hst harea).symm
        · rw [if_neg harea, square_bruteforce_fuel, if_pos hi, if_neg hpix]
          have hwpos : 0 < bmp.dimensions.width := by
            rcases Nat.eq_zero_or_pos bmp.dimensions.width with h0 | h
            · rw [h0] at hi; simp at hi
            · exact h
          have hcol : i % bmp.dimensions.width < bmp.dimensions.width := Nat.mod_lt _ hwpos
          have hrow : i / bmp.dimensions.width < bmp.dimensions.height :=
            Nat.div_lt_of_lt_mul hi
          have hid : i / bmp.dimensions.width * bmp.dimensions.width +
              i % bmp.dimensions.width = i := by
            rw [Nat.mul_comm, Nat.div_add_mod]
          have hfill : bmp_at bmp (i / bmp.dimensions.width)
              (i % bmp.dimensions.width) = true := by
            rw [bmp_at]
            show bmp.data.getD
              (i / bmp.dimensions.width * bmp.dimensions.width + i % bmp.dimensions.width)
              false = true
            rw [hid]
            simpa using hpix
          have hpcx : (point_ctor (i % bmp.dimensions.width) (i / bmp.dimensions.width)).x =
              i % bmp.dimensions.width := rfl
          by_cases hskip : ml > (square_move_along_orthogonals bmp
              (point_ctor (i % bmp.dimensions.width) (i / bmp.dimensions.width))).x -
              (point_ctor (i % bmp.dimensions.width) (i / bmp.dimensions.width)).x + 1
          · rw [square_anchor_step, if_pos hskip]
            rw [square_anchor_full_noop bmp i max ml hw hh hi hfill hst (by omega) (by omega)]
            exact ih (i + 1) max ml (sqstate_mono bmp i (i + 1) max ml hst (by omega))
          · have hstep : square_anchor_step bmp
                (point_ctor (i % bmp.dimensions.width) (i / bmp.dimensions.width)) max ml =
                square_anchor_full bmp
                (point_ctor (i % bmp.dimensions.width) (i / bmp.dimensions.width)) max ml := by
              rw [square_anchor_step, square_anchor_full, if_neg hskip]
            rw [hstep]
            exact ih (i + 1) _ _ (square_anchor_full_state bmp i max ml hw hh hi hfill hst)
    · rw [if_neg hi, square_bruteforce_fuel, if_neg hi]

/-- Below the wraparound threshold, `square_find_largest_square` (with the
remaining-area early return and the candidate skip) returns exactly the
square of the exhaustive scan that runs the full probe, verification and
shrinking at every filled anchor. -/
theorem square_scan_agrees_with_bruteforce (bmp : Bitmap)
    (hw : bmp.dimensions.width < INT_HALF) (hh : bmp.dimensions.height < INT_HALF) :
    square_find_largest_square bmp = square_bruteforce bmp := by
  rw [square_find_largest_square, square_bruteforce]
  exact square_scan_fuel_eq_bruteforce bmp hw hh
    (bmp.dimensions.width * bmp.dimensions.height) 0 shape_geometry_invalid_ctor 0
    (Or.inl ⟨rfl, by decide⟩)
